import Mathlib

/-!
Verification of the task-log interpretation engine of `mrjob/logs/task.py`.

The source file is embedded shallowly:

* Text is modelled as Lean `String`s (lists of characters); all scanning is
  done on `List Char`.  Regular-expression character classes (`\d`, `\w`,
  `\s`) are modelled over ASCII, matching their effect on the paths and log
  text the source deals with.
* The regexes of the source are compiled by hand into executable character
  scanners whose backtracking behaviour (lazy `.*?`, greedy `.*`, `$` before
  a final newline, `re.MULTILINE`) is reproduced faithfully; each scanner's
  doc comment names the regex it embeds.
* Python dictionaries with a fixed set of possible keys become structures
  with `Option` fields (a `none` field models an absent key).
* The filesystem (`_cat_log` from `wrap.py`) and the log4j record tokenizer
  (`_parse_hadoop_log4j_records` from `log4j.py`) are external collaborators,
  not part of the source under verification; they are modelled as function
  parameters giving the lines (resp. records) of each path.
* The generator-based interpretation loop becomes a recursion with explicit
  state (the visited-syslog set) which also records, in order, every file
  read (the trace the source exposes through `log_callback`).
-/

namespace MrjobTask

/-! ### Character class helpers (ASCII models of `\s`, `\d`, `\w`) -/

/-- ASCII model of the regex class `\s` / Python `str.strip` whitespace. -/
def _pyspace (c : Char) : Bool :=
  c == ' ' || c == '\t' || c == '\n' || c == '\r' || c == '\x0b' || c == '\x0c'

/-- ASCII model of the regex class `\w`. -/
def _word (c : Char) : Bool :=
  c.isAlphanum || c == '_'

/-- The apostrophe character used by the `Opening '...' for reading` regex. -/
def _quote : Char := '\''

/-- Python `line.rstrip('\r\n')`: drop trailing carriage returns/newlines. -/
def _rstrip_crlf (s : String) : String :=
  String.mk ((s.toList.reverse.dropWhile (fun c => c == '\r' || c == '\n')).reverse)

/-- Python `line.lstrip() != line`: the line starts with whitespace. -/
def _has_leading_space (s : String) : Bool :=
  match s.toList with
  | c :: _ => _pyspace c
  | [] => false

/-- Test that `cs` starts with the literal characters `pfx`. -/
def _lit_starts (pfx cs : List Char) : Bool :=
  cs.take pfx.length == pfx

/-! ### Stderr scanner (`_parse_task_stderr`)

`_SUBPROCESS_FAILED_STACK_TRACE_START` is
`^java\.lang\.RuntimeException: PipeMapRed\.waitOutputThreads\(\): subprocess failed with code .*$`
and `_TASK_STDERR_IGNORE_RE` is `^log4j:WARN .*$`, both used with `.match`.
On a line already stripped of trailing `\r`/`\n`, `re.match` of
`^LITERAL .*$` holds exactly when the line starts with the literal and the
remainder contains no newline (`$` may only match at the end, or before a
final newline, which `rstrip` has removed). -/

def _subprocess_failed_lit : List Char :=
  ("java.lang.RuntimeException: PipeMapRed.waitOutputThreads():"
    ++ " subprocess failed with code ").toList

/-- Regex `_SUBPROCESS_FAILED_STACK_TRACE_START.match(line)` on an rstripped line. -/
def _is_subprocess_failed (line : String) : Bool :=
  _lit_starts _subprocess_failed_lit line.toList
    && (line.toList.drop _subprocess_failed_lit.length).all (fun c => c != '\n')

/-- Regex `_TASK_STDERR_IGNORE_RE.match(line)` on an rstripped line. -/
def _is_log4j_warn (line : String) : Bool :=
  _lit_starts ("log4j:WARN ").toList line.toList
    && (line.toList.drop 11).all (fun c => c != '\n')

/-- The in-progress task error of `_parse_task_stderr`: the dict
`{message, start_line}` which may acquire a `num_lines` key mid-scan. -/
structure TaskErrorDraft where
  message : String
  start_line : Nat
  num_lines : Option Nat
  deriving DecidableEq, Repr

/-- Loop state of `_parse_task_stderr`: the `task_error` dict being built
(or `None`) and `stack_trace_start_line` (or `None`). -/
structure StderrState where
  task_error : Option TaskErrorDraft
  stack_trace_start_line : Option Nat
  deriving DecidableEq, Repr

/-- One iteration of the `for line_num, line in enumerate(lines)` loop of
`_parse_task_stderr`, on the already-rstripped line.  Control flow is
translated branch for branch; in every branch past the first two the state's
`stack_trace_start_line` is `none`, which matches the source: it either held
`None` there already or is assigned `None` on falling out of stack-trace
mode. -/
def _stderr_step_line (line_num : Nat) (line : String) (st : StderrState) : StderrState :=
  if _is_subprocess_failed line then
    { st with stack_trace_start_line := some line_num }
  else if st.stack_trace_start_line.isSome && _has_leading_space line then
    st
  else if _is_log4j_warn line then
    match st.task_error with
    | some te =>
      if te.num_lines = none then
        ⟨some ⟨te.message, te.start_line, some (line_num - te.start_line)⟩, none⟩
      else ⟨st.task_error, none⟩
    | none => ⟨st.task_error, none⟩
  else if st.task_error = none || _lit_starts ("+ ").toList line.toList then
    ⟨some ⟨line, line_num, none⟩, none⟩
  else
    match st.task_error with
    | some te => ⟨some ⟨te.message ++ "\n" ++ line, te.start_line, te.num_lines⟩, none⟩
    | none => ⟨st.task_error, none⟩

/-- One loop iteration: `line = line.rstrip('\r\n')`, then the rules. -/
def _stderr_step (line_num : Nat) (raw : String) (st : StderrState) : StderrState :=
  _stderr_step_line line_num (_rstrip_crlf raw) st

/-- The scan loop of `_parse_task_stderr`, starting at line index `i`. -/
def _stderr_scan_from (i : Nat) (st : StderrState) : List String → StderrState
  | [] => st
  | l :: ls => _stderr_scan_from (i + 1) (_stderr_step i l st) ls

/-- State after the whole `for` loop of `_parse_task_stderr`. -/
def _stderr_scan (lines : List String) : StderrState :=
  _stderr_scan_from 0 ⟨none, none⟩ lines

/-- A finalized task error, as returned by `_parse_task_stderr` (the `path`
key is stamped later by `_interpret_task_logs`). -/
structure TaskError where
  message : String
  start_line : Nat
  num_lines : Nat
  path : Option String
  deriving DecidableEq, Repr

/-- The function `_parse_task_stderr(lines)`.  The closing `end_line =
stack_trace_start_line or (line_num + 1)` uses Python `or`, under which the
integer `0` counts as falsy; `line_num + 1` at that point is the number of
lines. -/
def _parse_task_stderr (lines : List String) : Option TaskError :=
  match (_stderr_scan lines).task_error with
  | some te =>
    some ⟨te.message, te.start_line,
      (match te.num_lines with
       | some n => n
       | none =>
         (match (_stderr_scan lines).stack_trace_start_line with
          | some s => if s = 0 then lines.length else s
          | none => lines.length) - te.start_line), none⟩
  | none => none

/-! ### Syslog scanner (`_parse_task_syslog`)

The three record-level regexes are compiled by hand:

* `_JAVA_TRACEBACK_RE = r'$\s+at .*\((.*\.java:\d+|Native Method)\)$'` with
  `re.MULTILINE`, used with `.search()`.  A match needs a position at the end
  of a line (`$`), at least one whitespace character (which must begin with
  that line's newline), the literal `at `, and a parenthesised group ending
  exactly at the end of a line.  Hence the message matches iff some line
  *after the first* consists of optional whitespace, `at `, any text, and a
  final parenthesised `<file>.java:<digits>` or `Native Method`.
* `_OPENING_FOR_READING_RE = r"^Opening '(?P<path>.*?)' for reading$"` used
  with `.match()`: the lazy `.*?` (which cannot cross a newline) takes the
  shortest path making the rest of the message the closing literal,
  optionally followed by one final newline (`$`).
* `_YARN_INPUT_SPLIT_RE = r'^Processing split:\s+(?P<path>.*):(?P<start_line>\d+)\+(?P<num_lines>\d+)$'`
  used with `.match()`: greedy `\s+` then a greedy newline-free path, so the
  remainder after the maximal whitespace run must be newline-free and the
  split `path:digits+digits` is taken at the last `:` that works.
-/

/-- Drop one trailing newline, the position where a non-`MULTILINE` `$` may
match besides the very end of the string. -/
def _drop_final_newline (cs : List Char) : List Char :=
  match cs.reverse with
  | c :: r => if c = '\n' then r.reverse else cs
  | [] => cs

/-- Split a character list at every newline (so `"a\nb"` has lines
`["a", "b"]` and `"a\n"` has lines `["a", ""]`). -/
def _split_lines : List Char → List (List Char)
  | [] => [[]]
  | c :: rest =>
    if c = '\n' then [] :: _split_lines rest
    else
      match _split_lines rest with
      | l :: ls => (c :: l) :: ls
      | [] => [[c]]

/-- The group `(.*\.java:\d+|Native Method)` of `_JAVA_TRACEBACK_RE`,
anchored to cover `inner` completely. -/
def _frame_inner_ok (inner : List Char) : Bool :=
  inner == ("Native Method").toList ||
  (let rd := inner.reverse.takeWhile Char.isDigit
   let rest := inner.reverse.dropWhile Char.isDigit
   !rd.isEmpty && _lit_starts ((".java:").toList.reverse) rest)

/-- Pattern `.*\((.*\.java:\d+|Native Method)\)$` on the remainder of a line: some
`(` is followed by a valid inner group and a `)` that ends the line. -/
def _frame_body : List Char → Bool
  | [] => false
  | c :: rest =>
    (if c = '(' then
      match rest.reverse with
      | c2 :: innerRev => c2 == ')' && _frame_inner_ok innerRev.reverse
      | [] => false
     else false) || _frame_body rest

/-- A line consisting of optional whitespace, `at `, and a Java frame. -/
def _is_traceback_line (l : List Char) : Bool :=
  let cs := l.dropWhile _pyspace
  _lit_starts ("at ").toList cs && _frame_body (cs.drop 3)

/-- Regex `_JAVA_TRACEBACK_RE.search(message)` is some: a Java stack frame sits on
a line after the first one. -/
def _java_traceback_search (message : String) : Bool :=
  ((_split_lines message.toList).drop 1).any _is_traceback_line

/-- The closing literal `' for reading` of `_OPENING_FOR_READING_RE`. -/
def _opening_lit : List Char := _quote :: (" for reading").toList

/-- The lazy group `(?P<path>.*?)' for reading$`: the shortest newline-free
path whose remainder is the closing literal (plus at most a final newline). -/
def _opening_path (cs : List Char) : Option (List Char) :=
  if cs == _opening_lit || cs == _opening_lit ++ ['\n'] then some []
  else
    match cs with
    | [] => none
    | c :: rest =>
      if c == '\n' then none else (_opening_path rest).map (fun p => c :: p)

/-- Regex `_OPENING_FOR_READING_RE.match(message)`, returning the `path` group. -/
def _opening_match (message : String) : Option String :=
  let cs := message.toList
  if _lit_starts (("Opening ").toList ++ [_quote]) cs then
    (_opening_path (cs.drop 9)).map String.mk
  else none

/-- Numeric value of a digit run, as Python `int()`. -/
def _digits_to_nat (ds : List Char) : Nat :=
  ds.foldl (fun n c => n * 10 + (c.toNat - 48)) 0

/-- Pattern `(?P<path>.*):(?P<start_line>\d+)\+(?P<num_lines>\d+)$` on a
newline-free remainder: the greedy path takes the last `:` followed by
`digits+digits` reaching the end. -/
def _split_tail (cs : List Char) : Option (List Char × List Char × List Char) :=
  match cs with
  | [] => none
  | c :: rest =>
    match _split_tail rest with
    | some (p, d1, d2) => some (c :: p, d1, d2)
    | none =>
      if c = ':' then
        let d1 := rest.takeWhile Char.isDigit
        match rest.dropWhile Char.isDigit with
        | c2 :: r3 =>
          if c2 = '+' then
            if !d1.isEmpty && !r3.isEmpty && r3.all Char.isDigit then
              some ([], d1, r3)
            else none
          else none
        | [] => none
      else none

/-- Dict `split` of `_parse_task_syslog`: `start_line`/`num_lines` only for
the `Processing split:` message form. -/
structure SplitInfo where
  path : String
  start_line : Option Nat
  num_lines : Option Nat
  deriving DecidableEq, Repr

/-- Regex `_YARN_INPUT_SPLIT_RE.match(message)`, returning the split dict. -/
def _yarn_split_match (message : String) : Option SplitInfo :=
  let cs := message.toList
  if _lit_starts ("Processing split:").toList cs then
    let core := _drop_final_newline (cs.drop 17)
    let w := core.takeWhile _pyspace
    let r := core.dropWhile _pyspace
    if w.isEmpty then none
    else if r.any (fun c => c == '\n') then none
    else
      match _split_tail r with
      | some (p, d1, d2) =>
        some ⟨String.mk p, some (_digits_to_nat d1), some (_digits_to_nat d2)⟩
      | none => none
  else none

/-- One log4j record, as produced by the external tokenizer
`_parse_hadoop_log4j_records` (`log4j.py`, an out-of-scope collaborator). -/
structure LogRecord where
  message : String
  start_line : Nat
  num_lines : Nat
  deriving DecidableEq, Repr

/-- Dict `hadoop_error` (its `path` key is stamped by the caller). -/
structure HadoopError where
  message : String
  start_line : Nat
  num_lines : Nat
  path : Option String
  deriving DecidableEq, Repr

/-- Result dict of `_parse_task_syslog`: both keys optional. -/
structure SyslogResult where
  hadoop_error : Option HadoopError
  split : Option SplitInfo
  deriving DecidableEq, Repr

/-- The `for record in _parse_hadoop_log4j_records(lines)` loop of
`_parse_task_syslog`, with the accumulated result dict made explicit. -/
def _parse_task_syslog_go : List LogRecord → SyslogResult → SyslogResult
  | [], acc => acc
  | r :: rest, acc =>
    match _opening_match r.message with
    | some p => _parse_task_syslog_go rest ({ acc with split := some ⟨p, none, none⟩ })
    | none =>
      match _yarn_split_match r.message with
      | some si => _parse_task_syslog_go rest ({ acc with split := some si })
      | none =>
        if _java_traceback_search r.message then
          { acc with hadoop_error := some ⟨r.message, r.start_line, r.num_lines, none⟩ }
        else _parse_task_syslog_go rest acc

/-- The function `_parse_task_syslog(lines)`, over the tokenizer's record stream. -/
def _parse_task_syslog (records : List LogRecord) : SyslogResult :=
  _parse_task_syslog_go records ⟨none, none⟩

/-! ### Path classifier (`_match_task_log_path`)

The two layout regexes, used with `.match()`:

    _PRE_YARN_TASK_LOG_PATH_RE =
      ^(?P<prefix>.*?/)(?P<attempt_id>attempt_(?P<timestamp>\d+)_(?P<step_num>\d+)_
        (?P<task_type>[mr])_(?P<task_num>\d+)_(?P<attempt_num>\d+))/
        (?P<log_type>stderr|syslog)(?P<suffix>\.\w{1,3})?$
    _YARN_TASK_LOG_PATH_RE =
      ^(?P<prefix>.*?/)(?P<application_id>application_\d+_\d{4})/
        (?P<container_id>container(_\d+)+)/
        (?P<log_type>stderr|syslog)(?P<suffix>\.\w{1,3})?$

The lazy `.*?/` prefix cannot cross a newline and tries each `/` from the
left; everything after it is deterministic, because every other construct is
a literal or a digit/word run bounded by a non-member character.  `$` may
also match just before one final newline. -/

/-- Split at the first `/`: the only way the slash-free pieces of either
layout regex can meet their following `/`. -/
def _split_at_slash : List Char → Option (List Char × List Char)
  | [] => none
  | c :: rest =>
    if c = '/' then some ([], rest)
    else (_split_at_slash rest).map (fun pr => (c :: pr.1, pr.2))

/-- A maximal nonempty digit run (`\d+`) and the remainder. -/
def _chomp_digits (cs : List Char) : Option (List Char × List Char) :=
  let ds := cs.takeWhile Char.isDigit
  if ds.isEmpty then none else some (ds, cs.dropWhile Char.isDigit)

/-- Pattern `(?P<suffix>\.\w{1,3})?$` after the log type: nothing, or a dot and one
to three word characters, optionally before one final newline. -/
def _suffix_ok (cs : List Char) : Bool :=
  _drop_final_newline cs == [] ||
  (match _drop_final_newline cs with
   | c :: ws =>
     c == '.' && decide (1 ≤ ws.length) && decide (ws.length ≤ 3) && ws.all _word
   | [] => false)

/-- Pattern `(?P<log_type>stderr|syslog)(?P<suffix>\.\w{1,3})?$`. -/
def _match_log_type (cs : List Char) : Option String :=
  if _lit_starts ("stderr").toList cs && _suffix_ok (cs.drop 6) then some "stderr"
  else if _lit_starts ("syslog").toList cs && _suffix_ok (cs.drop 6) then some "syslog"
  else none

/-- The named groups a pre-YARN path match provides. -/
structure PreYarnFields where
  attempt_id : String
  timestamp : String
  step_num : String
  log_type : String
  deriving DecidableEq, Repr

/-- The `attempt_..._...` group: the whole segment must be
`attempt_<digits>_<digits>_<m|r>_<digits>_<digits>`.  Returns the
`timestamp` and `step_num` groups. -/
def _is_attempt_id (seg : List Char) : Option (String × String) :=
  if _lit_starts ("attempt_").toList seg then
    match _chomp_digits (seg.drop 8) with
    | some (ts, '_' :: r1) =>
      match _chomp_digits r1 with
      | some (sn, '_' :: tt :: '_' :: r2) =>
        if tt == 'm' || tt == 'r' then
          match _chomp_digits r2 with
          | some (_, '_' :: r3) =>
            match _chomp_digits r3 with
            | some (_, []) => some (String.mk ts, String.mk sn)
            | _ => none
          | _ => none
        else none
      | _ => none
    | _ => none
  else none

/-- The pre-YARN regex after its lazy prefix: attempt segment, `/`,
log type, optional suffix. -/
def _match_attempt_tail (cs : List Char) : Option PreYarnFields :=
  match _split_at_slash cs with
  | some (seg, rest) =>
    match _is_attempt_id seg with
    | some (ts, sn) =>
      match _match_log_type rest with
      | some lt => some ⟨String.mk seg, ts, sn, lt⟩
      | none => none
    | none => none
  | none => none

/-- The lazy `^.*?/`: try the tail parser after each `/` from the left
(shortest prefix first); `.*?` cannot cross a newline. -/
def _find_match_after_slash {α : Type} (f : List Char → Option α) :
    List Char → Option α
  | [] => none
  | c :: rest =>
    if c == '\n' then none
    else
      match (if c == '/' then f rest else none) with
      | some r => some r
      | none => _find_match_after_slash f rest

/-- Regex `_PRE_YARN_TASK_LOG_PATH_RE.match(path)`. -/
def _pre_yarn_task_log_path_match (path : String) : Option PreYarnFields :=
  _find_match_after_slash _match_attempt_tail path.toList

/-- The named groups a YARN path match provides. -/
structure YarnFields where
  application_id : String
  container_id : String
  log_type : String
  deriving DecidableEq, Repr

/-- Pattern `application_\d+_\d{4}` covering the whole segment. -/
def _is_application_id (seg : List Char) : Bool :=
  _lit_starts ("application_").toList seg &&
  (match _chomp_digits (seg.drop 12) with
   | some (_, '_' :: r) => r.length == 4 && r.all Char.isDigit
   | _ => false)

/-- Scanner for `(\d+(_\d+)*)` anchored to the end of the segment, starting
just after an underscore: `expectDigit` records that the previous character
was an `_`, which must be followed by at least one digit. -/
def _ud_groups : Bool → List Char → Bool
  | expectDigit, [] => !expectDigit
  | expectDigit, c :: rest =>
    if c = '_' then
      if expectDigit then false else _ud_groups true rest
    else if c.isDigit then _ud_groups false rest
    else false

/-- Pattern `(_\d+)+` covering all of `cs`. -/
def _is_underscore_digit_groups (cs : List Char) : Bool :=
  match cs with
  | '_' :: r => _ud_groups true r
  | _ => false

/-- Pattern `container(_\d+)+` covering the whole segment. -/
def _is_container_id (seg : List Char) : Bool :=
  _lit_starts ("container").toList seg && _is_underscore_digit_groups (seg.drop 9)

/-- The YARN regex after its lazy prefix: application segment, `/`,
container segment, `/`, log type, optional suffix. -/
def _match_yarn_tail (cs : List Char) : Option YarnFields :=
  match _split_at_slash cs with
  | some (seg1, rest1) =>
    if _is_application_id seg1 then
      match _split_at_slash rest1 with
      | some (seg2, rest2) =>
        if _is_container_id seg2 then
          match _match_log_type rest2 with
          | some lt => some ⟨String.mk seg1, String.mk seg2, lt⟩
          | none => none
        else none
      | none => none
    else none
  | none => none

/-- Regex `_YARN_TASK_LOG_PATH_RE.match(path)`. -/
def _yarn_task_log_path_match (path : String) : Option YarnFields :=
  _find_match_after_slash _match_yarn_tail path.toList

/-- Split a character list at every underscore. -/
def _split_on_underscore : List Char → List (List Char)
  | [] => [[]]
  | '_' :: rest => [] :: _split_on_underscore rest
  | c :: rest =>
    match _split_on_underscore rest with
    | l :: ls => (c :: l) :: ls
    | [] => [[c]]

/-- Modelled from the spec: `_to_job_id` lives in `ids.py`, which is not
under `src/`.  Per the spec it derives a job id from an attempt id by
stripping the attempt-specific suffix: the second and third
underscore-separated components (job timestamp and step number) are kept
under a `job_` marker. -/
def _to_job_id (attempt_id : String) : String :=
  match _split_on_underscore attempt_id.toList with
  | _ :: ts :: sn :: _ => String.mk (("job_").toList ++ ts ++ ['_'] ++ sn)
  | _ => attempt_id

/-- Python truthiness of an optional-string argument: `if job_id:` is false
for both `None` and the empty string. -/
def _truthy : Option String → Bool
  | none => false
  | some s => !(s == "")

/-- The dict `_match_task_log_path` returns: identity fields of exactly one
layout, plus the log type. -/
structure TaskLogPathFields where
  attempt_id : Option String
  application_id : Option String
  container_id : Option String
  log_type : String
  deriving DecidableEq, Repr

/-- The function `_match_task_log_path(path, application_id=None, job_id=None)`: try the
pre-YARN regex, then the YARN regex; a supplied (truthy) filter for the
matched layout that disagrees turns the match into `None`. -/
def _match_task_log_path (path : String)
    (application_id job_id : Option String) : Option TaskLogPathFields :=
  match _pre_yarn_task_log_path_match path with
  | some f =>
    if _truthy job_id && job_id != some (_to_job_id f.attempt_id) then none
    else some ⟨some f.attempt_id, none, none, f.log_type⟩
  | none =>
    match _yarn_task_log_path_match path with
    | some f =>
      if _truthy application_id && application_id != some f.application_id then
        none
      else some ⟨none, some f.application_id, some f.container_id, f.log_type⟩
    | none => none

/-! ### Log discovery and pairing (`_ls_task_logs`)

`_ls_logs` (`wrap.py`) is an out-of-scope collaborator that classifies every
file found under the directory stream through `_match_task_log_path` and
attaches the file's `path`; `_ls_task_logs` is therefore modelled over its
output, an arbitrary sequence of classified matches. -/

/-- A classified log match as produced by `_ls_logs`: the fields of
`_match_task_log_path` plus the file's `path`. -/
structure LogMatchBase where
  log_type : String
  path : String
  attempt_id : Option String
  application_id : Option String
  container_id : Option String
  deriving DecidableEq, Repr

/-- A match as yielded by `_ls_task_logs`: a classified match, which for a
paired stderr log carries the `syslog` key pointing at its sibling match. -/
structure TaskLogMatch where
  base : LogMatchBase
  syslog : Option LogMatchBase
  deriving DecidableEq, Repr

/-- The function `_log_key(match)`: all fields except `log_type` and `path`, compared by
value.  (The Python code sorts the dict items by key, making the comparison
order-independent; the fixed field triple models exactly that value set.) -/
def _log_key (m : LogMatchBase) : Option String × Option String × Option String :=
  (m.attempt_id, m.application_id, m.container_id)

/-- The function `_ls_task_logs`, over the classified matches `_ls_logs` yields.  The
Python `dict((key, m) for m in syslogs)` keeps the last match per key, hence
the lookup in the reversed syslog bucket. -/
def _ls_task_logs (ms : List LogMatchBase) : List TaskLogMatch :=
  let stderr_logs := ms.filter (fun m => m.log_type == "stderr")
  let syslogs := ms.filter (fun m => m.log_type == "syslog")
  let stderr_with := stderr_logs.filterMap (fun m =>
    (syslogs.reverse.find? (fun s => decide (_log_key s = _log_key m))).map
      (fun s => ({ base := m, syslog := some s } : TaskLogMatch)))
  stderr_with ++ syslogs.map (fun s => ({ base := s, syslog := none } : TaskLogMatch))

/-! ### Interpretation loop (`_interpret_task_logs`)

The filesystem (`_cat_log`) and the log4j tokenizer are modelled as the
functions `stderr_lines` / `syslog_records` from a path to that file's
lines / records.  The loop's calls to `log_callback` (one per file, made
immediately before parsing it) are collected in order as the `reads` trace. -/

/-- One `log_callback` invocation: the loop is about to parse this file. -/
inductive ReadEvent where
  | stderrRead (path : String)
  | syslogRead (path : String)
  deriving DecidableEq, Repr

/-- An entry of the `errors` list `_interpret_task_logs` accumulates. -/
structure ErrorRecord where
  task_error : Option TaskError
  hadoop_error : Option HadoopError
  split : Option SplitInfo
  attempt_id : Option String
  container_id : Option String
  task_id : Option String
  deriving DecidableEq, Repr

/-- Modelled from the spec: the identifier-derivation helper used by
`_add_implied_task_id` (`ids.py`, not under `src/`) derives a task id from
an attempt id by stripping the attempt-specific trailing component. -/
def _to_task_id (attempt_id : String) : String :=
  match _split_on_underscore attempt_id.toList with
  | _ :: a :: b :: c :: d :: _ =>
    String.mk (("task_").toList ++ a ++ ['_'] ++ b ++ ['_'] ++ c ++ ['_'] ++ d)
  | _ => attempt_id

/-- Modelled from the spec: `_add_implied_task_id` (`ids.py`, not under
`src/`) fills in the derivable `task_id` when an `attempt_id` is present and
no `task_id` is, and touches no other field. -/
def _add_implied_task_id (e : ErrorRecord) : ErrorRecord :=
  if e.task_id = none then
    match e.attempt_id with
    | some a => { e with task_id := some (_to_task_id a) }
    | none => e
  else e

/-- The syslog path a match resolves to: its paired syslog's path, or its
own path for a bare syslog match. -/
def _syslog_path (m : TaskLogMatch) : String :=
  match m.syslog with
  | some s => s.path
  | none => m.base.path

/-- The body of one iteration of the `for match in matches` loop of
`_interpret_task_logs`: from the visited-syslog set and the match, produce
the files read (in order), the updated visited set, and the error record
appended to the result, if any. -/
def _interpret_step (stderr_lines : String → List String)
    (syslog_records : String → List LogRecord)
    (visited : List String) (m : TaskLogMatch) :
    List ReadEvent × List String × Option ErrorRecord :=
  match m.syslog with
  | some s =>
    match _parse_task_stderr (stderr_lines m.base.path) with
    | none => ([.stderrRead m.base.path], visited, none)
    | some te0 =>
      if visited.contains s.path then ([.stderrRead m.base.path], visited, none)
      else
        match (_parse_task_syslog (syslog_records s.path)).hadoop_error with
        | none =>
          ([.stderrRead m.base.path, .syslogRead s.path], s.path :: visited, none)
        | some he =>
          ([.stderrRead m.base.path, .syslogRead s.path], s.path :: visited,
           some (_add_implied_task_id
             ⟨some ⟨te0.message, te0.start_line, te0.num_lines, some m.base.path⟩,
              some ⟨he.message, he.start_line, he.num_lines, some s.path⟩,
              (_parse_task_syslog (syslog_records s.path)).split,
              m.base.attempt_id, m.base.container_id, none⟩))
  | none =>
    if visited.contains m.base.path then ([], visited, none)
    else
      match (_parse_task_syslog (syslog_records m.base.path)).hadoop_error with
      | none => ([.syslogRead m.base.path], m.base.path :: visited, none)
      | some he =>
        ([.syslogRead m.base.path], m.base.path :: visited,
         some (_add_implied_task_id
           ⟨none, some ⟨he.message, he.start_line, he.num_lines, some m.base.path⟩,
            (_parse_task_syslog (syslog_records m.base.path)).split,
            m.base.attempt_id, m.base.container_id, none⟩))

/-- Result of `_interpret_task_logs`: `errors = []` models the absent
`errors` key (the source only creates it when appending a record), and
`partialFlag` models the presence of the `partial: True` key. -/
structure InterpResult where
  errors : List ErrorRecord
  partialFlag : Bool
  reads : List ReadEvent
  deriving DecidableEq, Repr

/-- The `for match in matches` loop of `_interpret_task_logs` with its
mutable state (result dict, visited-syslog set) made explicit.  In `partial`
mode the loop breaks right after appending an error and setting the
`partial` key. -/
def _interpret_go (stderr_lines : String → List String)
    (syslog_records : String → List LogRecord) (partialMode : Bool) :
    List TaskLogMatch → List String → InterpResult
  | [], _ => ⟨[], false, []⟩
  | m :: rest, visited =>
    let step := _interpret_step stderr_lines syslog_records visited m
    match step.2.2 with
    | none =>
      let r := _interpret_go stderr_lines syslog_records partialMode rest step.2.1
      ⟨r.errors, r.partialFlag, step.1 ++ r.reads⟩
    | some e =>
      if partialMode then ⟨[e], true, step.1⟩
      else
        let r := _interpret_go stderr_lines syslog_records partialMode rest step.2.1
        ⟨e :: r.errors, r.partialFlag, step.1 ++ r.reads⟩

/-- The function `_interpret_task_logs(fs, matches, partial, log_callback)`. -/
def _interpret_task_logs (stderr_lines : String → List String)
    (syslog_records : String → List LogRecord)
    (ms : List TaskLogMatch) (partialMode : Bool) : InterpResult :=
  _interpret_go stderr_lines syslog_records partialMode ms []

/-- The syslog paths among a read trace, in read order. -/
def _syslog_reads (evs : List ReadEvent) : List String :=
  evs.filterMap (fun ev =>
    match ev with
    | .syslogRead p => some p
    | .stderrRead _ => none)

/-- A match yields a corroborated error on its own: its stderr scan (for a
paired match) produces a task error, and the syslog scan of the path it
resolves to produces a `hadoop_error`. -/
def _yields_error (stderr_lines : String → List String)
    (syslog_records : String → List LogRecord) (m : TaskLogMatch) : Bool :=
  (match m.syslog with
   | some _ => (_parse_task_stderr (stderr_lines m.base.path)).isSome
   | none => true) &&
  (_parse_task_syslog (syslog_records (_syslog_path m))).hadoop_error.isSome

/-- The error record the loop appends for a corroborated match. -/
def _error_for (stderr_lines : String → List String)
    (syslog_records : String → List LogRecord) (m : TaskLogMatch) : ErrorRecord :=
  _add_implied_task_id
    ⟨(match m.syslog with
      | some _ =>
        (_parse_task_stderr (stderr_lines m.base.path)).map
          (fun te0 => ⟨te0.message, te0.start_line, te0.num_lines, some m.base.path⟩)
      | none => none),
     ((_parse_task_syslog (syslog_records (_syslog_path m))).hadoop_error).map
       (fun he => ⟨he.message, he.start_line, he.num_lines, some (_syslog_path m)⟩),
     (_parse_task_syslog (syslog_records (_syslog_path m))).split,
     m.base.attempt_id, m.base.container_id, none⟩

/-! ### Concrete instances (used to exhibit the behaviour on sample data) -/

/-- A filesystem on which every file is empty. -/
def _no_lines : String → List String := fun _ => []

/-- A tokenizer stream with no records for any path. -/
def _no_records : String → List LogRecord := fun _ => []

/-- A tokenizer stream with one exception record per path, positioned
differently on the two sample paths. -/
def _sample_records : String → List LogRecord := fun p =>
  if p = "dir/a/syslog" then [⟨"e\n at A.a(F.java:1)", 0, 2⟩]
  else [⟨"e\n at B.b(G.java:2)", 3, 2⟩]

/-- A bare syslog match for the first sample path. -/
def _sample_m1 : TaskLogMatch := ⟨⟨"syslog", "dir/a/syslog", none, none, none⟩, none⟩

/-- A bare syslog match for the second sample path. -/
def _sample_m2 : TaskLogMatch := ⟨⟨"syslog", "dir/b/syslog", none, none, none⟩, none⟩

/-! ## Helper lemmas -/

theorem aux_getLast?_mem : ∀ (l : List Char) (c : Char), l.getLast? = some c → c ∈ l := by
  intro l
  induction l with
  | nil => intro c h; simp at h
  | cons a t ih =>
    intro c h
    cases t with
    | nil => simp at h; simp [h]
    | cons b t' =>
      rw [List.getLast?_cons_cons] at h
      exact List.mem_cons_of_mem a (ih c h)

theorem aux_getLast?_cons (a : Char) (l : List Char) (h : l ≠ []) :
    (a :: l).getLast? = l.getLast? := by
  cases l with
  | nil => exact absurd rfl h
  | cons b t => exact List.getLast?_cons_cons

theorem aux_split_head {α : Type} (c : α) :
    ∀ (a a' b b' : List α), c ∉ a → c ∉ a' →
      a ++ c :: b = a' ++ c :: b' → a = a' ∧ b = b' := by
  intro a
  induction a with
  | nil =>
    intro a' b b' _ ha' heq
    cases a' with
    | nil => simpa using heq
    | cons x t =>
      simp only [List.nil_append, List.cons_append, List.cons.injEq] at heq
      exact absurd (heq.1 ▸ List.mem_cons_self x t) ha'
  | cons x t ih =>
    intro a' b b' ha ha' heq
    cases a' with
    | nil =>
      simp only [List.cons_append, List.nil_append, List.cons.injEq] at heq
      exact absurd (heq.1 ▸ List.mem_cons_self x t) ha
    | cons y t' =>
      simp only [List.cons_append, List.cons.injEq] at heq
      have ht : c ∉ t := fun hm => ha (List.mem_cons_of_mem x hm)
      have ht' : c ∉ t' := fun hm => ha' (List.mem_cons_of_mem y hm)
      obtain ⟨h1, h2⟩ := ih t' b b' ht ht' heq.2
      exact ⟨by rw [heq.1, h1], h2⟩

theorem aux_split_last {α : Type} (c : α) (a a' b b' : List α)
    (hb : c ∉ b) (hb' : c ∉ b') (heq : a ++ c :: b = a' ++ c :: b') :
    a = a' ∧ b = b' := by
  have hrev : b.reverse ++ c :: a.reverse = b'.reverse ++ c :: a'.reverse := by
    have h1 : (a ++ c :: b).reverse = (a' ++ c :: b').reverse := by rw [heq]
    simpa [List.reverse_append, List.append_assoc] using h1
  have hbr : c ∉ b.reverse := fun hm => hb (List.mem_reverse.mp hm)
  have hbr' : c ∉ b'.reverse := fun hm => hb' (List.mem_reverse.mp hm)
  obtain ⟨h1, h2⟩ := aux_split_head c b.reverse b'.reverse a.reverse a'.reverse hbr hbr' hrev
  constructor
  · have := congrArg List.reverse h2; simpa using this
  · have := congrArg List.reverse h1; simpa using this

theorem _split_lines_ne_nil (cs : List Char) : _split_lines cs ≠ [] := by
  cases cs with
  | nil => simp [_split_lines]
  | cons c rest =>
    simp only [_split_lines]
    split
    · simp
    · split <;> simp

theorem _split_lines_no_nl : ∀ (l : List Char), '\n' ∉ l → _split_lines l = [l] := by
  intro l
  induction l with
  | nil => intro _; rfl
  | cons c rest ih =>
    intro h
    have hc : ¬(c = '\n') := fun hc => h (hc ▸ List.mem_cons_self c rest)
    have hr : '\n' ∉ rest := fun hm => h (List.mem_cons_of_mem c hm)
    simp only [_split_lines, if_neg hc, ih hr]

theorem _split_lines_append_no_nl :
    ∀ (a b : List Char), '\n' ∉ a →
      ∃ h t, _split_lines b = h :: t ∧ _split_lines (a ++ b) = (a ++ h) :: t := by
  intro a
  induction a with
  | nil =>
    intro b _
    cases hb : _split_lines b with
    | nil => exact absurd hb (_split_lines_ne_nil b)
    | cons h t => exact ⟨h, t, rfl, by simpa using hb⟩
  | cons c rest ih =>
    intro b hnl
    have hc : ¬(c = '\n') := fun hc => hnl (hc ▸ List.mem_cons_self c rest)
    have hr : '\n' ∉ rest := fun hm => hnl (List.mem_cons_of_mem c hm)
    obtain ⟨h, t, hb, hab⟩ := ih b hr
    refine ⟨h, t, hb, ?_⟩
    simp only [List.cons_append, _split_lines, if_neg hc, List.append_eq, hab]

theorem _split_lines_snoc_nl :
    ∀ (x : List Char), _split_lines (x ++ ['\n']) = _split_lines x ++ [[]] := by
  intro x
  induction x with
  | nil => rfl
  | cons c rest ih =>
    by_cases hc : c = '\n'
    · subst hc
      simp only [List.cons_append, _split_lines, if_pos, List.append_eq, ih]
    · simp only [List.cons_append, _split_lines, if_neg hc, List.append_eq, ih]
      cases hr : _split_lines rest with
      | nil => exact absurd hr (_split_lines_ne_nil rest)
      | cons h t => simp [hr]

theorem _frame_body_getLast :
    ∀ (x : List Char), _frame_body x = true → x.getLast? = some ')' := by
  intro x
  induction x with
  | nil => intro h; simp [_frame_body] at h
  | cons c rest ih =>
    intro h
    simp only [_frame_body, Bool.or_eq_true] at h
    rcases h with h | h
    · split at h
      · rename_i hpar
        cases hrev : rest.reverse with
        | nil => rw [hrev] at h; simp at h
        | cons c2 innerRev =>
          rw [hrev] at h
          simp only [Bool.and_eq_true, beq_iff_eq] at h
          have hrest : rest = innerRev.reverse ++ [c2] := by
            have := congrArg List.reverse hrev
            simpa using this
          have hne : rest ≠ [] := by rw [hrest]; simp
          rw [aux_getLast?_cons c rest hne, hrest]
          simp [h.1]
      · simp at h
    · have hlast := ih h
      have hne : rest ≠ [] := by
        intro he; rw [he] at hlast; simp at hlast
      rw [aux_getLast?_cons c rest hne]
      exact hlast

theorem _lit_starts_decomp (pfx cs : List Char) (h : _lit_starts pfx cs = true) :
    cs = pfx ++ cs.drop pfx.length := by
  have htake : cs.take pfx.length = pfx := by
    have := of_decide_eq_true (by simpa [_lit_starts] using h)
    simpa using this
  conv_lhs => rw [← List.take_append_drop pfx.length cs]
  rw [htake]

theorem _is_traceback_line_getLast (l : List Char) (h : _is_traceback_line l = true) :
    l.getLast? = some ')' := by
  unfold _is_traceback_line at h
  simp only [Bool.and_eq_true] at h
  obtain ⟨hpfx, hfb⟩ := h
  set cs := l.dropWhile _pyspace with hcs
  have hdecomp : cs = ("at ").toList ++ cs.drop 3 := by
    have := _lit_starts_decomp (("at ").toList) cs hpfx
    simpa using this
  have hlast3 := _frame_body_getLast (cs.drop 3) hfb
  have hne3 : cs.drop 3 ≠ [] := by
    intro he; rw [he] at hlast3; simp at hlast3
  have hcs_last : cs.getLast? = some ')' := by
    rw [hdecomp, List.getLast?_append_of_ne_nil _ hne3]
    exact hlast3
  have hl : l = l.takeWhile _pyspace ++ cs := by
    rw [hcs, List.takeWhile_append_dropWhile]
  have hne : cs ≠ [] := by
    intro he; rw [he] at hcs_last; simp at hcs_last
  rw [hl, List.getLast?_append_of_ne_nil _ hne]
  exact hcs_last

theorem _is_traceback_line_ws (l : List Char) (h : l.all _pyspace = true) :
    _is_traceback_line l = false := by
  unfold _is_traceback_line
  have hdrop : l.dropWhile _pyspace = [] :=
    List.dropWhile_eq_nil_iff.mpr (List.all_eq_true.mp h)
  rw [hdrop]
  rfl

/-! Helper lemmas for the stderr scanner: whenever a task error exists,
`stack_trace_start_line` cannot be `some 0` (a stack trace opened at line 0
prevents any task error from ever being created), so Python's falsy-zero
`or` in the finalization agrees with a plain case split. -/

theorem _stderr_step_sts (i : Nat) (l : String) (st : StderrState) (hi : 1 ≤ i)
    (hst : st.task_error.isSome = true → st.stack_trace_start_line ≠ some 0) :
    (_stderr_step i l st).task_error.isSome = true →
      (_stderr_step i l st).stack_trace_start_line ≠ some 0 := by
  unfold _stderr_step _stderr_step_line
  split
  · intro _ h
    simp only [Option.some.injEq] at h
    omega
  · split
    · exact hst
    · intro _
      split
      · split
        · split <;> simp
        · simp
      · split
        · simp
        · split <;> simp

theorem _stderr_step_zero (l : String) :
    (_stderr_step 0 l ⟨none, none⟩).task_error.isSome = true →
      (_stderr_step 0 l ⟨none, none⟩).stack_trace_start_line ≠ some 0 := by
  unfold _stderr_step _stderr_step_line
  split
  · intro h; simp at h
  · split
    · intro h; simp at h
    · intro _
      split
      · split
        · split <;> simp
        · simp
      · split
        · simp
        · split <;> simp

theorem _stderr_scan_from_sts :
    ∀ (ls : List String) (i : Nat) (st : StderrState), 1 ≤ i →
      (st.task_error.isSome = true → st.stack_trace_start_line ≠ some 0) →
      ((_stderr_scan_from i st ls).task_error.isSome = true →
        (_stderr_scan_from i st ls).stack_trace_start_line ≠ some 0) := by
  intro ls
  induction ls with
  | nil => intro i st _ hst; simpa [_stderr_scan_from] using hst
  | cons l ls ih =>
    intro i st hi hst
    simp only [_stderr_scan_from]
    exact ih (i + 1) _ (by omega) (_stderr_step_sts i l st hi hst)

theorem _stderr_scan_sts (lines : List String) :
    (_stderr_scan lines).task_error.isSome = true →
      (_stderr_scan lines).stack_trace_start_line ≠ some 0 := by
  cases lines with
  | nil => intro h; simp [_stderr_scan, _stderr_scan_from] at h
  | cons l ls =>
    simp only [_stderr_scan, _stderr_scan_from]
    exact _stderr_scan_from_sts ls 1 _ (le_refl 1) (_stderr_step_zero l)

/-! Helper lemmas for the syslog scanner: a record matched by the opening or
input-split rule can never also contain a Java stack frame, so the first
record whose message contains a frame is the one that sets `hadoop_error`. -/

theorem _opening_path_spec :
    ∀ (cs q : List Char), _opening_path cs = some q →
      '\n' ∉ q ∧ (cs = q ++ _opening_lit ∨ cs = q ++ _opening_lit ++ ['\n']) := by
  intro cs
  induction cs with
  | nil =>
    intro q h
    unfold _opening_path at h
    rw [if_neg (by decide)] at h
    simp at h
  | cons c rest ih =>
    intro q h
    unfold _opening_path at h
    by_cases hlit : (c :: rest == _opening_lit || c :: rest == _opening_lit ++ ['\n']) = true
    · rw [if_pos hlit] at h
      simp only [Option.some.injEq] at h
      subst h
      refine ⟨by simp, ?_⟩
      simp only [Bool.or_eq_true, beq_iff_eq] at hlit
      rcases hlit with h1 | h1
      · left; simpa using h1
      · right; simpa using h1
    · rw [if_neg hlit] at h
      dsimp only at h
      by_cases hc : (c == '\n') = true
      · rw [if_pos hc] at h; simp at h
      · rw [if_neg hc] at h
        obtain ⟨q', hrec, hq⟩ := Option.map_eq_some'.mp h
        obtain ⟨hnq, hor⟩ := ih q' hrec
        subst hq
        have hcne : c ≠ '\n' := by simpa using hc
        refine ⟨?_, ?_⟩
        · intro hm
          rcases List.mem_cons.mp hm with h1 | h1
          · exact hcne h1.symm
          · exact hnq h1
        · rcases hor with h1 | h1
          · left; rw [h1]; rfl
          · right; rw [h1]; rfl

theorem _opening_no_traceback (msg : String) (p : String)
    (h : _opening_match msg = some p) : _java_traceback_search msg = false := by
  unfold _opening_match at h
  by_cases hpfx : _lit_starts (("Opening ").toList ++ [_quote]) msg.toList = true
  · rw [if_pos hpfx] at h
    have hq : ∃ q, _opening_path (msg.toList.drop 9) = some q := by
      cases hop : _opening_path (msg.toList.drop 9) with
      | none => rw [hop] at h; simp at h
      | some q => exact ⟨q, rfl⟩
    obtain ⟨q, hop⟩ := hq
    obtain ⟨hnq, hor⟩ := _opening_path_spec _ q hop
    have hdec := _lit_starts_decomp _ _ hpfx
    rw [show ((("Opening ").toList ++ [_quote]).length) = 9 from by decide] at hdec
    have hnnA : '\n' ∉ (("Opening ").toList ++ [_quote]) := by decide
    have hnnL : '\n' ∉ _opening_lit := by decide
    unfold _java_traceback_search
    rcases hor with hcase | hcase
    · have hmsg : msg.toList = (("Opening ").toList ++ [_quote]) ++ (q ++ _opening_lit) := by
        rw [← hcase]; exact hdec
      have hnn : '\n' ∉ msg.toList := by
        rw [hmsg]
        intro hm
        rcases List.mem_append.mp hm with h1 | h2
        · exact hnnA h1
        · rcases List.mem_append.mp h2 with h3 | h4
          · exact hnq h3
          · exact hnnL h4
      rw [_split_lines_no_nl _ hnn]
      rfl
    · have hx : '\n' ∉ (("Opening ").toList ++ [_quote]) ++ (q ++ _opening_lit) := by
        intro hm
        rcases List.mem_append.mp hm with h1 | h2
        · exact hnnA h1
        · rcases List.mem_append.mp h2 with h3 | h4
          · exact hnq h3
          · exact hnnL h4
      have hmsg : msg.toList =
          ((("Opening ").toList ++ [_quote]) ++ (q ++ _opening_lit)) ++ ['\n'] := by
        rw [hdec, hcase]
        simp [List.append_assoc]
      rw [hmsg, _split_lines_snoc_nl, _split_lines_no_nl _ hx]
      rfl
  · rw [if_neg hpfx] at h; simp at h

theorem _split_tail_last_digit :
    ∀ (cs p d1 d2 : List Char), _split_tail cs = some (p, d1, d2) →
      ∃ c, cs.getLast? = some c ∧ c.isDigit = true := by
  intro cs
  induction cs with
  | nil => intro p d1 d2 h; simp [_split_tail] at h
  | cons c rest ih =>
    intro p d1 d2 h
    unfold _split_tail at h
    cases hrec : _split_tail rest with
    | some t =>
      obtain ⟨p', d1', d2'⟩ := t
      obtain ⟨cl, hlast, hdig⟩ := ih p' d1' d2' hrec
      have hne : rest ≠ [] := by
        intro he; rw [he] at hlast; simp at hlast
      rw [aux_getLast?_cons c rest hne]
      exact ⟨cl, hlast, hdig⟩
    | none =>
      rw [hrec] at h
      dsimp only at h
      by_cases hcol : c = ':'
      · rw [if_pos hcol] at h
        cases hdrop : rest.dropWhile Char.isDigit with
        | nil => rw [hdrop] at h; simp at h
        | cons c2 r3 =>
          rw [hdrop] at h
          dsimp only at h
          by_cases hplus : c2 = '+'
          · rw [if_pos hplus] at h
            by_cases hcond : (!(rest.takeWhile Char.isDigit).isEmpty && !r3.isEmpty
                && r3.all Char.isDigit) = true
            · rw [if_pos hcond] at h
              simp only [Bool.and_eq_true, Bool.not_eq_true'] at hcond
              have hr3ne : r3 ≠ [] := by
                intro he
                rw [he] at hcond
                simp at hcond
              have hr3last : ∃ x, r3.getLast? = some x := by
                cases hr : r3.getLast? with
                | none => exact absurd (List.getLast?_eq_none_iff.mp hr) hr3ne
                | some x => exact ⟨x, rfl⟩
              obtain ⟨x, hx⟩ := hr3last
              have hxd : x.isDigit = true :=
                List.all_eq_true.mp hcond.2 x (aux_getLast?_mem r3 x hx)
              refine ⟨x, ?_, hxd⟩
              have hrest : rest = rest.takeWhile Char.isDigit ++ (c2 :: r3) := by
                conv_lhs => rw [← List.takeWhile_append_dropWhile (p := Char.isDigit) (l := rest)]
                rw [hdrop]
              have hne : rest ≠ [] := by
                rw [hrest]; simp
              rw [aux_getLast?_cons c rest hne, hrest,
                List.getLast?_append_of_ne_nil _ (by simp : c2 :: r3 ≠ []),
                aux_getLast?_cons c2 r3 hr3ne]
              exact hx
            · rw [if_neg hcond] at h; simp at h
          · rw [if_neg hplus] at h; simp at h
      · rw [if_neg hcol] at h; simp at h

theorem _drop_final_spec (cs : List Char) :
    cs = _drop_final_newline cs ∨ cs = _drop_final_newline cs ++ ['\n'] := by
  unfold _drop_final_newline
  cases hrev : cs.reverse with
  | nil => left; rfl
  | cons c r =>
    dsimp only
    by_cases hc : c = '\n'
    · right
      rw [if_pos hc]
      subst hc
      have := congrArg List.reverse hrev
      simpa using this
    · left; rw [if_neg hc]

theorem _lines_ws_append :
    ∀ (w r : List Char), w.all _pyspace = true → '\n' ∉ r →
      ∀ l ∈ _split_lines (w ++ r),
        l.all _pyspace = true ∨ ∃ t, t.all _pyspace = true ∧ l = t ++ r := by
  intro w
  induction w with
  | nil =>
    intro r _ hr l hl
    rw [List.nil_append, _split_lines_no_nl r hr] at hl
    simp only [List.mem_singleton] at hl
    right
    exact ⟨[], rfl, by simp [hl]⟩
  | cons c w' ih =>
    intro r hall hr l hl
    have hcw : _pyspace c = true ∧ w'.all _pyspace = true := by simpa using hall
    by_cases hc : c = '\n'
    · rw [List.cons_append] at hl
      simp only [_split_lines, if_pos hc, List.append_eq] at hl
      rcases List.mem_cons.mp hl with h1 | h2
      · left; simp [h1]
      · exact ih r hcw.2 hr l h2
    · rw [List.cons_append] at hl
      simp only [_split_lines, if_neg hc, List.append_eq] at hl
      cases hsl : _split_lines (w' ++ r) with
      | nil => exact absurd hsl (_split_lines_ne_nil _)
      | cons h t =>
        rw [hsl] at hl
        have hh : h ∈ _split_lines (w' ++ r) := by
          rw [hsl]; exact List.mem_cons_self h t
        rcases List.mem_cons.mp hl with h1 | h2
        · rcases ih r hcw.2 hr h hh with hws | ⟨t2, ht2, he⟩
          · left
            rw [h1]
            simp only [List.all_cons, Bool.and_eq_true]
            exact ⟨hcw.1, hws⟩
          · right
            refine ⟨c :: t2, ?_, ?_⟩
            · simp only [List.all_cons, Bool.and_eq_true]
              exact ⟨hcw.1, ht2⟩
            · rw [h1, he]; rfl
        · exact ih r hcw.2 hr l (by rw [hsl]; exact List.mem_cons_of_mem h h2)

theorem _yarn_no_traceback (msg : String) (si : SplitInfo)
    (h : _yarn_split_match msg = some si) : _java_traceback_search msg = false := by
  unfold _yarn_split_match at h
  by_cases hpfx : _lit_starts ("Processing split:").toList msg.toList = true
  · rw [if_pos hpfx] at h
    simp only [] at h
    by_cases hw : ((_drop_final_newline (msg.toList.drop 17)).takeWhile _pyspace).isEmpty = true
    · rw [if_pos hw] at h; simp at h
    · rw [if_neg hw] at h
      by_cases hnl : ((_drop_final_newline (msg.toList.drop 17)).dropWhile _pyspace).any
          (fun c => c == '\n') = true
      · rw [if_pos hnl] at h; simp at h
      · rw [if_neg hnl] at h
        have hrfree : '\n' ∉ (_drop_final_newline (msg.toList.drop 17)).dropWhile _pyspace := by
          intro hm
          exact hnl (List.any_eq_true.mpr ⟨'\n', hm, by simp⟩)
        have hlastd : ∃ c, ((_drop_final_newline (msg.toList.drop 17)).dropWhile
            _pyspace).getLast? = some c ∧ c.isDigit = true := by
          cases hst : _split_tail ((_drop_final_newline (msg.toList.drop 17)).dropWhile _pyspace) with
          | none => rw [hst] at h; simp at h
          | some t =>
            obtain ⟨p, d1, d2⟩ := t
            exact _split_tail_last_digit _ p d1 d2 hst
        obtain ⟨dc, hdc, hdcd⟩ := hlastd
        have hwall : ((_drop_final_newline (msg.toList.drop 17)).takeWhile _pyspace).all
            _pyspace = true :=
          List.all_eq_true.mpr (fun x hx => List.mem_takeWhile_imp hx)
        have hdecomp := _lit_starts_decomp _ _ hpfx
        rw [show (("Processing split:").toList.length) = 17 from by decide] at hdecomp
        have hcore := _drop_final_spec (msg.toList.drop 17)
        have hsplit : _drop_final_newline (msg.toList.drop 17) =
            (_drop_final_newline (msg.toList.drop 17)).takeWhile _pyspace ++
            (_drop_final_newline (msg.toList.drop 17)).dropWhile _pyspace :=
          (List.takeWhile_append_dropWhile (p := _pyspace)
            (l := _drop_final_newline (msg.toList.drop 17))).symm
        have hnnP : '\n' ∉ ("Processing split:").toList := by decide
        -- every line after the first is whitespace-only or ends in a digit
        have hkey : ∀ l ∈ (_split_lines msg.toList).drop 1, _is_traceback_line l = false := by
          have hwr : ∀ l ∈ _split_lines
              ((_drop_final_newline (msg.toList.drop 17)).takeWhile _pyspace ++
               (_drop_final_newline (msg.toList.drop 17)).dropWhile _pyspace),
              _is_traceback_line l = false := by
            intro l hl
            rcases _lines_ws_append _ _ hwall hrfree l hl with hws | ⟨t2, _, he⟩
            · exact _is_traceback_line_ws l hws
            · cases htl : _is_traceback_line l with
              | false => rfl
              | true =>
                exfalso
                have hpar := _is_traceback_line_getLast l htl
                have hrne : (_drop_final_newline (msg.toList.drop 17)).dropWhile _pyspace ≠ [] := by
                  intro he2; rw [he2] at hdc; simp at hdc
                rw [he, List.getLast?_append_of_ne_nil _ hrne, hdc] at hpar
                simp only [Option.some.injEq] at hpar
                rw [hpar] at hdcd
                simp at hdcd
          rcases hcore with hc0 | hc0
          · -- no trailing newline
            have hmsg : msg.toList = ("Processing split:").toList ++
                ((_drop_final_newline (msg.toList.drop 17)).takeWhile _pyspace ++
                 (_drop_final_newline (msg.toList.drop 17)).dropWhile _pyspace) := by
              rw [← hsplit, ← hc0]; exact hdecomp
            obtain ⟨hh, tt, hlines, hlines2⟩ :=
              _split_lines_append_no_nl ("Processing split:").toList _ hnnP
            intro l hl
            rw [hmsg, hlines2] at hl
            simp only [List.drop_one, List.tail_cons] at hl
            exact hwr l (by rw [hlines]; exact List.mem_cons_of_mem hh hl)
          · -- trailing newline
            have hmsg : msg.toList = (("Processing split:").toList ++
                ((_drop_final_newline (msg.toList.drop 17)).takeWhile _pyspace ++
                 (_drop_final_newline (msg.toList.drop 17)).dropWhile _pyspace)) ++ ['\n'] := by
              rw [← hsplit, List.append_assoc, ← hc0]; exact hdecomp
            obtain ⟨hh, tt, hlines, hlines2⟩ :=
              _split_lines_append_no_nl ("Processing split:").toList _ hnnP
            intro l hl
            rw [hmsg, _split_lines_snoc_nl, hlines2] at hl
            simp only [List.cons_append, List.drop_one, List.tail_cons] at hl
            rcases List.mem_append.mp hl with h1 | h1
            · exact hwr l (by rw [hlines]; exact List.mem_cons_of_mem hh h1)
            · rw [List.mem_singleton.mp h1]; rfl
        unfold _java_traceback_search
        rw [List.any_eq_false]
        intro x hx
        rw [hkey x hx]
        simp
  · rw [if_neg hpfx] at h; simp at h

theorem _parse_syslog_go_break :
    ∀ (pre : List LogRecord) (post : List LogRecord) (r : LogRecord) (acc : SyslogResult),
      (∀ q ∈ pre, _java_traceback_search q.message = false) →
      _java_traceback_search r.message = true →
      _parse_task_syslog_go (pre ++ r :: post) acc =
          _parse_task_syslog_go (pre ++ [r]) acc
        ∧ (_parse_task_syslog_go (pre ++ r :: post) acc).hadoop_error =
          some ⟨r.message, r.start_line, r.num_lines, none⟩ := by
  intro pre
  induction pre with
  | nil =>
    intro post r acc _ hr
    simp only [List.nil_append]
    have hop : _opening_match r.message = none := by
      cases ho : _opening_match r.message with
      | none => rfl
      | some p => rw [_opening_no_traceback r.message p ho] at hr; exact absurd hr (by simp)
    have hys : _yarn_split_match r.message = none := by
      cases hy : _yarn_split_match r.message with
      | none => rfl
      | some si => rw [_yarn_no_traceback r.message si hy] at hr; exact absurd hr (by simp)
    constructor
    · unfold _parse_task_syslog_go
      rw [hop, hys]
      dsimp only
      simp [hr]
    · unfold _parse_task_syslog_go
      rw [hop, hys]
      dsimp only
      simp [hr]
  | cons q pre' ih =>
    intro post r acc hpre hr
    have hq : _java_traceback_search q.message = false :=
      hpre q (List.mem_cons_self q pre')
    have hpre' : ∀ x ∈ pre', _java_traceback_search x.message = false :=
      fun x hx => hpre x (List.mem_cons_of_mem q hx)
    simp only [List.cons_append]
    cases ho : _opening_match q.message with
    | some p =>
      unfold _parse_task_syslog_go
      rw [ho]
      exact ih post r _ hpre' hr
    | none =>
      cases hy : _yarn_split_match q.message with
      | some si =>
        unfold _parse_task_syslog_go
        rw [ho, hy]
        exact ih post r _ hpre' hr
      | none =>
        unfold _parse_task_syslog_go
        rw [ho, hy, hq]
        simp only [Bool.false_eq_true, if_false]
        exact ih post r _ hpre' hr

/-! Helper lemmas for `_ls_task_logs`. -/

theorem _find?_isSome_eq_any (p : LogMatchBase → Bool) :
    ∀ l : List LogMatchBase, (l.find? p).isSome = l.any p := by
  intro l
  induction l with
  | nil => rfl
  | cons a t ih =>
    by_cases h : p a = true
    · simp [List.find?_cons_of_pos, h]
    · simp only [List.find?_cons_of_neg _ (by simpa using h), List.any_cons, h, ih,
        Bool.false_or]

theorem _paired_map_base (g : LogMatchBase → Option LogMatchBase) :
    ∀ l : List LogMatchBase,
      ((l.filterMap (fun m => (g m).map
          (fun s => ({ base := m, syslog := some s } : TaskLogMatch)))).map
        (fun p => p.base)) = l.filter (fun m => (g m).isSome) := by
  intro l
  induction l with
  | nil => rfl
  | cons a t ih =>
    cases hg : g a with
    | none => simp [List.filterMap_cons, hg, List.filter_cons, ih]
    | some s => simp [List.filterMap_cons, hg, List.filter_cons, ih]

/-! Helper lemmas for the interpretation loop. -/

theorem _add_implied_hadoop (e : ErrorRecord) :
    (_add_implied_task_id e).hadoop_error = e.hadoop_error := by
  unfold _add_implied_task_id
  split
  · split <;> rfl
  · rfl

/-- Unfolding of one loop iteration whose step appends no error. -/
theorem _interpret_go_cons_none (sF : String → List String)
    (rF : String → List LogRecord) (pm : Bool) (m : TaskLogMatch)
    (rest : List TaskLogMatch) (visited : List String)
    (evs : List ReadEvent) (vis' : List String)
    (h : _interpret_step sF rF visited m = (evs, vis', none)) :
    _interpret_go sF rF pm (m :: rest) visited =
      ⟨(_interpret_go sF rF pm rest vis').errors,
       (_interpret_go sF rF pm rest vis').partialFlag,
       evs ++ (_interpret_go sF rF pm rest vis').reads⟩ := by
  simp only [_interpret_go, h]

/-- Unfolding of one loop iteration whose step appends an error: the loop
breaks in `partial` mode and carries on otherwise. -/
theorem _interpret_go_cons_some (sF : String → List String)
    (rF : String → List LogRecord) (pm : Bool) (m : TaskLogMatch)
    (rest : List TaskLogMatch) (visited : List String)
    (evs : List ReadEvent) (vis' : List String) (e : ErrorRecord)
    (h : _interpret_step sF rF visited m = (evs, vis', some e)) :
    _interpret_go sF rF pm (m :: rest) visited =
      if pm then ⟨[e], true, evs⟩
      else ⟨e :: (_interpret_go sF rF pm rest vis').errors,
            (_interpret_go sF rF pm rest vis').partialFlag,
            evs ++ (_interpret_go sF rF pm rest vis').reads⟩ := by
  simp only [_interpret_go, h]

/-- Each loop step either reads no syslog and leaves the state alone, or
reads exactly one unvisited syslog path and marks it visited. -/
theorem _interpret_step_shape (sF : String → List String)
    (rF : String → List LogRecord) (visited : List String) (m : TaskLogMatch)
    (evs : List ReadEvent) (vis' : List String) (em : Option ErrorRecord)
    (h : _interpret_step sF rF visited m = (evs, vis', em)) :
    (_syslog_reads evs = [] ∧ vis' = visited ∧ em = none)
    ∨ (∃ p, _syslog_reads evs = [p] ∧ visited.contains p = false
        ∧ vis' = p :: visited) := by
  revert h
  unfold _interpret_step
  cases m.syslog with
  | some s =>
    dsimp only
    cases _parse_task_stderr (sF m.base.path) with
    | none =>
      intro h
      injection h with h1 h23
      injection h23 with h2 h3
      left
      exact ⟨by rw [← h1]; rfl, h2.symm, h3.symm⟩
    | some te0 =>
      dsimp only
      by_cases hv : visited.contains s.path = true
      · rw [if_pos hv]
        intro h
        injection h with h1 h23
        injection h23 with h2 h3
        left
        exact ⟨by rw [← h1]; rfl, h2.symm, h3.symm⟩
      · rw [if_neg hv]
        cases (_parse_task_syslog (rF s.path)).hadoop_error with
        | none =>
          intro h
          injection h with h1 h23
          injection h23 with h2 h3
          right
          exact ⟨s.path, by rw [← h1]; rfl, by simpa using hv, h2.symm⟩
        | some he =>
          intro h
          injection h with h1 h23
          injection h23 with h2 h3
          right
          exact ⟨s.path, by rw [← h1]; rfl, by simpa using hv, h2.symm⟩
  | none =>
    dsimp only
    by_cases hv : visited.contains m.base.path = true
    · rw [if_pos hv]
      intro h
      injection h with h1 h23
      injection h23 with h2 h3
      left
      exact ⟨by rw [← h1]; rfl, h2.symm, h3.symm⟩
    · rw [if_neg hv]
      cases (_parse_task_syslog (rF m.base.path)).hadoop_error with
      | none =>
        intro h
        injection h with h1 h23
        injection h23 with h2 h3
        right
        exact ⟨m.base.path, by rw [← h1]; rfl, by simpa using hv, h2.symm⟩
      | some he =>
        intro h
        injection h with h1 h23
        injection h23 with h2 h3
        right
        exact ⟨m.base.path, by rw [← h1]; rfl, by simpa using hv, h2.symm⟩

/-- An emitted record always carries a populated `hadoop_error`, and the
step only emits when the syslog scan of the resolved path found one. -/
theorem _interpret_step_emits (sF : String → List String)
    (rF : String → List LogRecord) (visited : List String) (m : TaskLogMatch)
    (evs : List ReadEvent) (vis' : List String) (e : ErrorRecord)
    (h : _interpret_step sF rF visited m = (evs, vis', some e)) :
    (_parse_task_syslog (rF (_syslog_path m))).hadoop_error.isSome = true
    ∧ e.hadoop_error.isSome = true := by
  revert h
  unfold _interpret_step _syslog_path
  cases m.syslog with
  | some s =>
    dsimp only
    cases _parse_task_stderr (sF m.base.path) with
    | none => intro h; injection h with h1 h23; injection h23 with h2 h3; simp at h3
    | some te0 =>
      dsimp only
      by_cases hv : visited.contains s.path = true
      · rw [if_pos hv]
        intro h; injection h with h1 h23; injection h23 with h2 h3; simp at h3
      · rw [if_neg hv]
        cases hh : (_parse_task_syslog (rF s.path)).hadoop_error with
        | none =>
          intro h; injection h with h1 h23; injection h23 with h2 h3; simp at h3
        | some he =>
          intro h
          injection h with h1 h23
          injection h23 with h2 h3
          simp only [Option.some.injEq] at h3
          refine ⟨by simp [hh], ?_⟩
          rw [← h3, _add_implied_hadoop]
          rfl
  | none =>
    dsimp only
    by_cases hv : visited.contains m.base.path = true
    · rw [if_pos hv]
      intro h; injection h with h1 h23; injection h23 with h2 h3; simp at h3
    · rw [if_neg hv]
      cases hh : (_parse_task_syslog (rF m.base.path)).hadoop_error with
      | none =>
        intro h; injection h with h1 h23; injection h23 with h2 h3; simp at h3
      | some he =>
        intro h
        injection h with h1 h23
        injection h23 with h2 h3
        simp only [Option.some.injEq] at h3
        refine ⟨by simp [hh], ?_⟩
        rw [← h3, _add_implied_hadoop]
        rfl

/-- A corroborated match at an unvisited syslog path makes the step emit
exactly the record `_error_for` describes. -/
theorem _interpret_step_yields (sF : String → List String)
    (rF : String → List LogRecord) (visited : List String) (m : TaskLogMatch)
    (hy : _yields_error sF rF m = true)
    (hv : visited.contains (_syslog_path m) = false) :
    _interpret_step sF rF visited m =
      ((match m.syslog with
        | some s => [.stderrRead m.base.path, .syslogRead s.path]
        | none => [.syslogRead m.base.path]),
       _syslog_path m :: visited, some (_error_for sF rF m)) := by
  unfold _yields_error at hy
  unfold _interpret_step _error_for
  unfold _syslog_path at hy hv ⊢
  cases hms : m.syslog with
  | some s =>
    rw [hms] at hy hv
    dsimp only at hy hv ⊢
    simp only [Bool.and_eq_true] at hy
    obtain ⟨te0, hte0⟩ := Option.isSome_iff_exists.mp hy.1
    obtain ⟨he, hhe⟩ := Option.isSome_iff_exists.mp hy.2
    rw [hte0, hhe]
    dsimp only
    rw [if_neg (by simpa using hv)]
    simp
  | none =>
    rw [hms] at hy hv
    dsimp only at hy hv ⊢
    simp only [Bool.true_and] at hy
    obtain ⟨he, hhe⟩ := Option.isSome_iff_exists.mp hy
    rw [hhe]
    dsimp only
    rw [if_neg (by simpa using hv)]
    simp

/-! ## Claim theorems -/

/-- C3: `_ls_task_logs` returns the stderr matches that have an
identity-matching syslog, in discovery order and each carrying a paired
syslog from the input, followed by all syslog matches in discovery order;
an stderr match pairs exactly when some syslog match agrees with it on all
identity fields other than `log_type` and `path`, and an unpaired stderr
match is dropped. -/
theorem c3_ls_task_logs_pairing (ms : List LogMatchBase) :
    ∃ paired : List TaskLogMatch,
      _ls_task_logs ms = paired ++ (ms.filter (fun m => m.log_type == "syslog")).map
          (fun s => ({ base := s, syslog := none } : TaskLogMatch))
      ∧ paired.map (fun p => p.base) =
          (ms.filter (fun m => m.log_type == "stderr")).filter
            (fun m => (ms.filter (fun s => s.log_type == "syslog")).any
              (fun s => decide (_log_key s = _log_key m)))
      ∧ (∀ p ∈ paired, ∃ s, p.syslog = some s ∧ s ∈ ms ∧ s.log_type = "syslog"
          ∧ _log_key s = _log_key p.base) := by
  refine ⟨(ms.filter (fun m => m.log_type == "stderr")).filterMap
      (fun m => (((ms.filter (fun m2 => m2.log_type == "syslog")).reverse.find?
        (fun s => decide (_log_key s = _log_key m))).map
          (fun s => ({ base := m, syslog := some s } : TaskLogMatch)))), ?_, ?_, ?_⟩
  · rfl
  · rw [_paired_map_base
      (fun m => (ms.filter (fun m2 => m2.log_type == "syslog")).reverse.find?
        (fun s => decide (_log_key s = _log_key m)))]
    apply List.filter_congr
    intro m _
    rw [_find?_isSome_eq_any, List.any_reverse]
  · intro p hp
    obtain ⟨m, _, hmap⟩ := List.mem_filterMap.mp hp
    obtain ⟨s, hfind, hps⟩ := Option.map_eq_some'.mp hmap
    have hs := List.mem_of_find?_eq_some hfind
    have hsf := List.mem_reverse.mp hs
    refine ⟨s, ?_, (List.mem_filter.mp hsf).1, ?_, ?_⟩
    · rw [← hps]
    · have h2 := (List.mem_filter.mp hsf).2
      simpa using h2
    · have h3 := List.find?_some hfind
      simp only [decide_eq_true_eq] at h3
      rw [← hps]
      exact h3

/-- C3 witness: a single syslog match passes through unpaired. -/
theorem c3_witness :
    _ls_task_logs [⟨"syslog", "d/s", some "k", none, none⟩] =
      [⟨⟨"syslog", "d/s", some "k", none, none⟩, none⟩] := by
  obtain ⟨paired, h1, h2, _⟩ :=
    c3_ls_task_logs_pairing [⟨"syslog", "d/s", some "k", none, none⟩]
  have hpair : paired = [] := by
    have h2' : paired.map (fun p => p.base) = [] := by rw [h2]; decide
    exact List.map_eq_nil_iff.mp h2'
  rw [h1, hpair]
  decide

/-- C5: At end of input, `_parse_task_stderr` returns none exactly when no
current task error exists (in particular on the empty line sequence);
otherwise, if the current task error's length was not already finalized by a
noise line, its `num_lines` is (`stack_trace_start_line` if stack-trace mode
is still open, else last line index + 1) minus the error's `start_line`. -/
theorem c5_parse_task_stderr_end_of_input (lines : List String) (te : TaskErrorDraft) :
    (_parse_task_stderr [] = none)
    ∧ (_parse_task_stderr lines = none ↔ (_stderr_scan lines).task_error = none)
    ∧ ((_stderr_scan lines).task_error = some te → te.num_lines = none →
        _parse_task_stderr lines =
          some ⟨te.message, te.start_line,
            (match (_stderr_scan lines).stack_trace_start_line with
             | some s => s
             | none => lines.length) - te.start_line, none⟩) := by
  refine ⟨rfl, ?_, ?_⟩
  · unfold _parse_task_stderr
    cases h : (_stderr_scan lines).task_error <;> simp [h]
  · intro hte hnum
    have hsts := _stderr_scan_sts lines
    rw [hte] at hsts
    have hsts' : (_stderr_scan lines).stack_trace_start_line ≠ some 0 :=
      hsts (by simp)
    unfold _parse_task_stderr
    rw [hte]
    dsimp only
    rw [hnum]
    cases hs : (_stderr_scan lines).stack_trace_start_line with
    | none => simp
    | some s =>
      have hs0 : ¬(s = 0) := by
        intro he; exact hsts' (by rw [hs, he])
      simp [if_neg hs0]

/-- C5 witness: on the single line `+ cmd` the scanner returns a task error
starting at line 0 spanning one line. -/
theorem c5_witness : _parse_task_stderr ["+ cmd"] = some ⟨"+ cmd", 0, 1, none⟩ := by
  have h := (c5_parse_task_stderr_end_of_input ["+ cmd"] ⟨"+ cmd", 0, none⟩).2.2
    (by decide) rfl
  exact h

/-- C4: when `_parse_task_syslog` reaches the first record whose message
contains a Java stack-trace frame signature, it sets `hadoop_error` to that
record's full message with the record's own `start_line`/`num_lines` span,
and stops consuming the stream, so no later record is examined or can alter
the result. -/
theorem c4_parse_task_syslog_stops_at_first_traceback
    (pre post : List LogRecord) (r : LogRecord)
    (hpre : ∀ q ∈ pre, _java_traceback_search q.message = false)
    (hr : _java_traceback_search r.message = true) :
    _parse_task_syslog (pre ++ r :: post) = _parse_task_syslog (pre ++ [r])
    ∧ (_parse_task_syslog (pre ++ r :: post)).hadoop_error =
        some ⟨r.message, r.start_line, r.num_lines, none⟩ := by
  unfold _parse_task_syslog
  exact _parse_syslog_go_break pre post r ⟨none, none⟩ hpre hr

/-- C4 witness: the record stream with an exception record followed by a
further record yields the first record's error and ignores the second. -/
theorem c4_witness :
    _parse_task_syslog [⟨"e\n at X.y(F.java:1)", 5, 2⟩, ⟨"f\n at Z.w(G.java:9)", 7, 2⟩]
      = _parse_task_syslog [⟨"e\n at X.y(F.java:1)", 5, 2⟩]
    ∧ (_parse_task_syslog
        [⟨"e\n at X.y(F.java:1)", 5, 2⟩, ⟨"f\n at Z.w(G.java:9)", 7, 2⟩]).hadoop_error
      = some ⟨"e\n at X.y(F.java:1)", 5, 2, none⟩ := by
  have h := c4_parse_task_syslog_stops_at_first_traceback []
    [⟨"f\n at Z.w(G.java:9)", 7, 2⟩] ⟨"e\n at X.y(F.java:1)", 5, 2⟩
    (by intro q hq; exact absurd hq (List.not_mem_nil q)) (by decide)
  simpa using h

/-- C10: the `num_lines` of a returned task error can undercount the
newline-separated lines of its message: a content line, a `log4j:WARN` noise
line, then another content line yields a two-line message with
`num_lines = 1`. -/
theorem c10_num_lines_smaller_than_message_lines :
    ∃ te : TaskError,
      _parse_task_stderr ["content", "log4j:WARN x", "content2"] = some te
      ∧ te.num_lines = 1
      ∧ (_split_lines te.message.toList).length = 2 := by
  refine ⟨⟨"content\ncontent2", 0, 1, none⟩, by decide, rfl, by decide⟩

/-! Helper lemmas for the path classifier: the two layout regexes are
mutually exclusive, because the segment right before the final
`stderr`/`syslog` segment would have to start with both `attempt_` and
`container`. -/

theorem _split_at_slash_spec :
    ∀ (cs a b : List Char), _split_at_slash cs = some (a, b) →
      cs = a ++ '/' :: b ∧ '/' ∉ a := by
  intro cs
  induction cs with
  | nil => intro a b h; simp [_split_at_slash] at h
  | cons c rest ih =>
    intro a b h
    unfold _split_at_slash at h
    by_cases hc : c = '/'
    · rw [if_pos hc] at h
      simp only [Option.some.injEq, Prod.mk.injEq] at h
      obtain ⟨h1, h2⟩ := h
      subst h1 h2 hc
      exact ⟨rfl, by simp⟩
    · rw [if_neg hc] at h
      obtain ⟨pr, hrec, hmap⟩ := Option.map_eq_some'.mp h
      obtain ⟨a', b'⟩ := pr
      simp only [Prod.mk.injEq] at hmap
      obtain ⟨h1, h2⟩ := hmap
      obtain ⟨hcs, hna⟩ := ih a' b' hrec
      subst h1 h2
      constructor
      · rw [hcs]; rfl
      · intro hm
        rcases List.mem_cons.mp hm with h3 | h3
        · exact hc h3.symm
        · exact hna h3

theorem _find_match_after_slash_spec {α : Type} (f : List Char → Option α) :
    ∀ (cs : List Char) (r : α), _find_match_after_slash f cs = some r →
      ∃ a b, cs = a ++ '/' :: b ∧ f b = some r := by
  intro cs
  induction cs with
  | nil => intro r h; simp [_find_match_after_slash] at h
  | cons c rest ih =>
    intro r h
    unfold _find_match_after_slash at h
    by_cases hnl : (c == '\n') = true
    · rw [if_pos hnl] at h; simp at h
    · rw [if_neg hnl] at h
      by_cases hsl : (c == '/') = true
      · rw [if_pos hsl] at h
        cases hf : f rest with
        | some r2 =>
          rw [hf] at h
          dsimp only at h
          have hr : r2 = r := by simpa using h
          have hc : c = '/' := by simpa using hsl
          exact ⟨[], rest, by rw [hc]; rfl, by rw [hf, hr]⟩
        | none =>
          rw [hf] at h
          dsimp only at h
          obtain ⟨a, b, h1, h2⟩ := ih r h
          exact ⟨c :: a, b, by rw [h1]; rfl, h2⟩
      · rw [if_neg hsl] at h
        dsimp only at h
        obtain ⟨a, b, h1, h2⟩ := ih r h
        exact ⟨c :: a, b, by rw [h1]; rfl, h2⟩

theorem _suffix_ok_no_slash (cs : List Char) (h : _suffix_ok cs = true) :
    '/' ∉ cs := by
  unfold _suffix_ok at h
  have hdfn : '/' ∉ _drop_final_newline cs := by
    rw [Bool.or_eq_true] at h
    rcases h with h1 | h1
    · rw [beq_iff_eq.mp h1]
      simp
    · cases hd : _drop_final_newline cs with
      | nil => simp
      | cons c ws =>
        rw [hd] at h1
        simp only [Bool.and_eq_true, beq_iff_eq] at h1
        intro hm
        rcases List.mem_cons.mp hm with h2 | h2
        · rw [h1.1.1.1] at h2; exact absurd h2 (by decide)
        · have := List.all_eq_true.mp h1.2 _ h2
          exact absurd this (by decide)
  rcases _drop_final_spec cs with hc | hc
  · rw [hc]; exact hdfn
  · rw [hc]
    intro hm
    rcases List.mem_append.mp hm with h1 | h1
    · exact hdfn h1
    · exact absurd h1 (by decide)

theorem _match_log_type_no_slash (cs : List Char) (lt : String)
    (h : _match_log_type cs = some lt) : '/' ∉ cs := by
  unfold _match_log_type at h
  by_cases h1 : (_lit_starts ("stderr").toList cs && _suffix_ok (cs.drop 6)) = true
  · rw [Bool.and_eq_true] at h1
    obtain ⟨hp, hs⟩ := h1
    have hdec := _lit_starts_decomp _ _ hp
    rw [show (("stderr").toList.length) = 6 from by decide] at hdec
    rw [hdec]
    intro hm
    rcases List.mem_append.mp hm with hA | hB
    · exact absurd hA (by decide)
    · exact _suffix_ok_no_slash _ hs hB
  · rw [if_neg h1] at h
    by_cases h2 : (_lit_starts ("syslog").toList cs && _suffix_ok (cs.drop 6)) = true
    · rw [Bool.and_eq_true] at h2
      obtain ⟨hp, hs⟩ := h2
      have hdec := _lit_starts_decomp _ _ hp
      rw [show (("syslog").toList.length) = 6 from by decide] at hdec
      rw [hdec]
      intro hm
      rcases List.mem_append.mp hm with hA | hB
      · exact absurd hA (by decide)
      · exact _suffix_ok_no_slash _ hs hB
    · rw [if_neg h2] at h; simp at h

theorem _is_attempt_id_head (seg : List Char) (x : String × String)
    (h : _is_attempt_id seg = some x) : ∃ t, seg = 'a' :: t := by
  unfold _is_attempt_id at h
  by_cases hp : _lit_starts ("attempt_").toList seg = true
  · have hdec := _lit_starts_decomp _ _ hp
    rw [show (("attempt_").toList.length) = 8 from by decide] at hdec
    exact ⟨("ttempt_").toList ++ seg.drop 8, by rw [hdec]; rfl⟩
  · rw [if_neg hp] at h; simp at h

theorem _is_container_id_head (seg : List Char) (h : _is_container_id seg = true) :
    ∃ t, seg = 'c' :: t := by
  unfold _is_container_id at h
  rw [Bool.and_eq_true] at h
  obtain ⟨hp, _⟩ := h
  have hdec := _lit_starts_decomp _ _ hp
  rw [show (("container").toList.length) = 9 from by decide] at hdec
  exact ⟨("ontainer").toList ++ seg.drop 9, by rw [hdec]; rfl⟩

theorem _match_attempt_tail_spec (cs : List Char) (f : PreYarnFields)
    (h : _match_attempt_tail cs = some f) :
    ∃ seg r, cs = seg ++ '/' :: r ∧ '/' ∉ seg ∧ (∃ t, seg = 'a' :: t) ∧ '/' ∉ r := by
  unfold _match_attempt_tail at h
  cases hsp : _split_at_slash cs with
  | none => rw [hsp] at h; simp at h
  | some pr =>
    obtain ⟨seg, rest⟩ := pr
    rw [hsp] at h
    dsimp only at h
    cases hid : _is_attempt_id seg with
    | none => rw [hid] at h; simp at h
    | some ts =>
      rw [hid] at h
      dsimp only at h
      cases hlt : _match_log_type rest with
      | none => rw [hlt] at h; simp at h
      | some lt =>
        obtain ⟨hcs, hns⟩ := _split_at_slash_spec cs seg rest hsp
        exact ⟨seg, rest, hcs, hns, _is_attempt_id_head seg ts hid,
          _match_log_type_no_slash rest lt hlt⟩

theorem _match_yarn_tail_spec (cs : List Char) (f : YarnFields)
    (h : _match_yarn_tail cs = some f) :
    ∃ s1 s2 r, cs = s1 ++ '/' :: (s2 ++ '/' :: r) ∧ '/' ∉ s2
      ∧ (∃ t, s2 = 'c' :: t) ∧ '/' ∉ r := by
  unfold _match_yarn_tail at h
  cases hsp : _split_at_slash cs with
  | none => rw [hsp] at h; simp at h
  | some pr =>
    obtain ⟨seg1, rest1⟩ := pr
    rw [hsp] at h
    dsimp only at h
    by_cases happ : _is_application_id seg1 = true
    · rw [if_pos happ] at h
      cases hsp2 : _split_at_slash rest1 with
      | none => rw [hsp2] at h; simp at h
      | some pr2 =>
        obtain ⟨seg2, rest2⟩ := pr2
        rw [hsp2] at h
        dsimp only at h
        by_cases hcont : _is_container_id seg2 = true
        · rw [if_pos hcont] at h
          cases hlt : _match_log_type rest2 with
          | none => rw [hlt] at h; simp at h
          | some lt =>
            obtain ⟨hcs1, _⟩ := _split_at_slash_spec cs seg1 rest1 hsp
            obtain ⟨hcs2, hns2⟩ := _split_at_slash_spec rest1 seg2 rest2 hsp2
            refine ⟨seg1, seg2, rest2, ?_, hns2, _is_container_id_head seg2 hcont,
              _match_log_type_no_slash rest2 lt hlt⟩
            rw [hcs1, hcs2]
        · rw [if_neg hcont] at h; simp at h
    · rw [if_neg happ] at h; simp at h

/-- The two layout regexes never match the same path. -/
theorem _pre_yarn_exclusive (path : String) (f : PreYarnFields)
    (hp : _pre_yarn_task_log_path_match path = some f) :
    _yarn_task_log_path_match path = none := by
  cases hy : _yarn_task_log_path_match path with
  | none => rfl
  | some g =>
    exfalso
    obtain ⟨a1, b1, hcs1, hf1⟩ :=
      _find_match_after_slash_spec _match_attempt_tail path.toList f hp
    obtain ⟨a2, b2, hcs2, hf2⟩ :=
      _find_match_after_slash_spec _match_yarn_tail path.toList g hy
    obtain ⟨seg, r, hb1, hnseg, ⟨t1, hseg⟩, hnr⟩ := _match_attempt_tail_spec b1 f hf1
    obtain ⟨s1, s2, r2, hb2, hns2, ⟨t2, hs2⟩, hnr2⟩ := _match_yarn_tail_spec b2 g hf2
    have h1 : path.toList = (a1 ++ '/' :: seg) ++ '/' :: r := by
      rw [hcs1, hb1]
      simp [List.append_assoc]
    have h2 : path.toList = ((a2 ++ '/' :: s1) ++ '/' :: s2) ++ '/' :: r2 := by
      rw [hcs2, hb2]
      simp [List.append_assoc]
    have he1 : (a1 ++ '/' :: seg) ++ '/' :: r =
        ((a2 ++ '/' :: s1) ++ '/' :: s2) ++ '/' :: r2 := by
      rw [← h1, h2]
    obtain ⟨he2, _⟩ := aux_split_last '/' _ _ _ _ hnr hnr2 he1
    obtain ⟨_, he4⟩ := aux_split_last '/' _ _ _ _ hnseg hns2 he2
    rw [hseg, hs2] at he4
    simp at he4

/-- Splitting the syslog-read trace across an append. -/
theorem _syslog_reads_append (a b : List ReadEvent) :
    _syslog_reads (a ++ b) = _syslog_reads a ++ _syslog_reads b := by
  unfold _syslog_reads
  exact List.filterMap_append a b _

/-- C1: every error record appended by `_interpret_task_logs` carries a
populated `hadoop_error`; and a match whose syslog scan yields no
`hadoop_error` contributes nothing to the result — whatever its stderr scan
produced — so an uncorroborated task error is never reported. -/
theorem c1_interpret_task_logs_errors_have_hadoop_error
    (sF : String → List String) (rF : String → List LogRecord)
    (ms : List TaskLogMatch) (pm : Bool) (m : TaskLogMatch) :
    (∀ e ∈ (_interpret_task_logs sF rF ms pm).errors, e.hadoop_error.isSome = true)
    ∧ ((_parse_task_syslog (rF (_syslog_path m))).hadoop_error = none →
        (_interpret_task_logs sF rF [m] pm).errors = []
        ∧ (_interpret_task_logs sF rF [m] pm).partialFlag = false) := by
  constructor
  · have hgen : ∀ (ms' : List TaskLogMatch) (visited : List String),
        ∀ e ∈ (_interpret_go sF rF pm ms' visited).errors,
          e.hadoop_error.isSome = true := by
      intro ms'
      induction ms' with
      | nil => intro visited e he; simp [_interpret_go] at he
      | cons m' rest ih =>
        intro visited e he
        rcases hstep : _interpret_step sF rF visited m' with ⟨evs, vis', em⟩
        cases em with
        | none =>
          rw [_interpret_go_cons_none sF rF pm m' rest visited evs vis' hstep] at he
          exact ih vis' e he
        | some e0 =>
          rw [_interpret_go_cons_some sF rF pm m' rest visited evs vis' e0 hstep] at he
          have hemit := (_interpret_step_emits sF rF visited m' evs vis' e0 hstep).2
          by_cases hpm : pm = true
          · rw [if_pos hpm] at he
            have : e = e0 := by simpa using he
            rw [this]; exact hemit
          · rw [if_neg hpm] at he
            rcases List.mem_cons.mp he with h1 | h1
            · rw [h1]; exact hemit
            · exact ih vis' e h1
    exact hgen ms []
  · intro hnone
    rcases hstep : _interpret_step sF rF [] m with ⟨evs, vis', em⟩
    cases em with
    | some e0 =>
      exfalso
      have := (_interpret_step_emits sF rF [] m evs vis' e0 hstep).1
      rw [hnone] at this
      simp at this
    | none =>
      unfold _interpret_task_logs
      rw [_interpret_go_cons_none sF rF pm m [] [] evs vis' hstep]
      constructor <;> simp [_interpret_go]

/-- C1 witness: one bare syslog match whose records contain no exception
produces an empty error list. -/
theorem c1_witness :
    (_interpret_task_logs _no_lines _no_records [_sample_m1] true).errors = [] := by
  exact ((c1_interpret_task_logs_errors_have_hadoop_error _no_lines _no_records
    [_sample_m1] true _sample_m1).2 rfl).1

/-- C2: on two matches that each independently yield a corroborated error at
distinct syslog paths, `partial=true` returns exactly the first error with
the `partial` flag set and stops reading immediately, while `partial=false`
returns both errors in discovery order with no `partial` flag. -/
theorem c2_interpret_task_logs_partial_vs_exhaustive
    (sF : String → List String) (rF : String → List LogRecord)
    (m1 m2 : TaskLogMatch)
    (h1 : _yields_error sF rF m1 = true) (h2 : _yields_error sF rF m2 = true)
    (hne : _syslog_path m1 ≠ _syslog_path m2) :
    ((_interpret_task_logs sF rF [m1, m2] true).errors = [_error_for sF rF m1]
     ∧ (_interpret_task_logs sF rF [m1, m2] true).partialFlag = true
     ∧ (_interpret_task_logs sF rF [m1, m2] true).reads =
         (_interpret_step sF rF [] m1).1)
    ∧ ((_interpret_task_logs sF rF [m1, m2] false).errors =
         [_error_for sF rF m1, _error_for sF rF m2]
       ∧ (_interpret_task_logs sF rF [m1, m2] false).partialFlag = false) := by
  have hv1 : ([] : List String).contains (_syslog_path m1) = false := rfl
  have hstep1 := _interpret_step_yields sF rF [] m1 h1 hv1
  have hv2 : ([_syslog_path m1]).contains (_syslog_path m2) = false := by
    simp only [List.contains_cons, List.contains_nil, Bool.or_false, beq_eq_false_iff_ne]
    exact fun he => hne he.symm
  have hstep2 := _interpret_step_yields sF rF [_syslog_path m1] m2 h2 hv2
  constructor
  · unfold _interpret_task_logs
    rw [_interpret_go_cons_some sF rF true m1 [m2] [] _ _ _ hstep1, if_pos rfl,
      hstep1]
    exact ⟨rfl, rfl, rfl⟩
  · unfold _interpret_task_logs
    rw [_interpret_go_cons_some sF rF false m1 [m2] [] _ _ _ hstep1,
      if_neg (by simp)]
    rw [_interpret_go_cons_some sF rF false m2 [] (_syslog_path m1 :: []) _ _ _
      hstep2, if_neg (by simp)]
    constructor <;> simp [_interpret_go]

/-- C2 witness: two bare syslog matches at distinct paths, each with an
exception record. -/
theorem c2_witness :
    (_interpret_task_logs _no_lines _sample_records [_sample_m1, _sample_m2] true).errors
      = [_error_for _no_lines _sample_records _sample_m1]
    ∧ (_interpret_task_logs _no_lines _sample_records
        [_sample_m1, _sample_m2] false).errors
      = [_error_for _no_lines _sample_records _sample_m1,
         _error_for _no_lines _sample_records _sample_m2] := by
  have h := c2_interpret_task_logs_partial_vs_exhaustive _no_lines _sample_records
    _sample_m1 _sample_m2 (by decide) (by decide) (by decide)
  exact ⟨h.1.1, h.2.1⟩

/-- C6: within one `_interpret_task_logs` run, each syslog path is read at
most once — the trace of syslog reads contains no duplicates, whatever the
matches and mode. -/
theorem c6_interpret_task_logs_syslog_read_once
    (sF : String → List String) (rF : String → List LogRecord)
    (ms : List TaskLogMatch) (pm : Bool) :
    (_syslog_reads (_interpret_task_logs sF rF ms pm).reads).Nodup := by
  have hgen : ∀ (ms' : List TaskLogMatch) (visited : List String),
      (_syslog_reads (_interpret_go sF rF pm ms' visited).reads).Nodup
      ∧ ∀ p ∈ _syslog_reads (_interpret_go sF rF pm ms' visited).reads,
          visited.contains p = false := by
    intro ms'
    induction ms' with
    | nil =>
      intro visited
      constructor
      · simp [_interpret_go, _syslog_reads]
      · intro p hp; simp [_interpret_go, _syslog_reads] at hp
    | cons m rest ih =>
      intro visited
      rcases hstep : _interpret_step sF rF visited m with ⟨evs, vis', em⟩
      rcases _interpret_step_shape sF rF visited m evs vis' em hstep with
        ⟨hevs, hvis, hem⟩ | ⟨p, hevs, hpv, hvis⟩
      · subst hem hvis
        rw [_interpret_go_cons_none sF rF pm m rest _ evs _ hstep]
        dsimp only
        rw [_syslog_reads_append, hevs, List.nil_append]
        exact ih _
      · subst hvis
        cases em with
        | none =>
          rw [_interpret_go_cons_none sF rF pm m rest visited evs
            (p :: visited) hstep]
          dsimp only
          rw [_syslog_reads_append, hevs]
          constructor
          · rw [List.cons_append, List.nil_append, List.nodup_cons]
            constructor
            · intro hmem
              have := (ih (p :: visited)).2 p hmem
              simp at this
            · exact (ih (p :: visited)).1
          · intro q hq
            rw [List.cons_append, List.nil_append] at hq
            rcases List.mem_cons.mp hq with hq1 | hq1
            · rw [hq1]; exact hpv
            · have := (ih (p :: visited)).2 q hq1
              rw [List.contains_cons] at this
              exact (Bool.or_eq_false_iff.mp this).2
        | some e0 =>
          rw [_interpret_go_cons_some sF rF pm m rest visited evs
            (p :: visited) e0 hstep]
          by_cases hpm : pm = true
          · rw [if_pos hpm]
            dsimp only
            rw [hevs]
            constructor
            · exact List.nodup_singleton p
            · intro q hq
              rw [List.mem_singleton.mp hq]
              exact hpv
          · rw [if_neg hpm]
            dsimp only
            rw [_syslog_reads_append, hevs]
            constructor
            · rw [List.cons_append, List.nil_append, List.nodup_cons]
              constructor
              · intro hmem
                have := (ih (p :: visited)).2 p hmem
                simp at this
              · exact (ih (p :: visited)).1
            · intro q hq
              rw [List.cons_append, List.nil_append] at hq
              rcases List.mem_cons.mp hq with hq1 | hq1
              · rw [hq1]; exact hpv
              · have := (ih (p :: visited)).2 q hq1
                rw [List.contains_cons] at this
                exact (Bool.or_eq_false_iff.mp this).2
  exact (hgen ms []).1

/-- C7: a path matching the pre-YARN layout classifies to a match holding
exactly `attempt_id` and `log_type`; a path matching the YARN layout
classifies to exactly `application_id`, `container_id` and `log_type`; a
path matching neither layout classifies to none whatever the filters. -/
theorem c7_match_task_log_path_fields (path : String) :
    (∀ f, _pre_yarn_task_log_path_match path = some f →
      _match_task_log_path path none none =
        some ⟨some f.attempt_id, none, none, f.log_type⟩)
    ∧ (∀ f, _yarn_task_log_path_match path = some f →
      _match_task_log_path path none none =
        some ⟨none, some f.application_id, some f.container_id, f.log_type⟩)
    ∧ (_pre_yarn_task_log_path_match path = none →
       _yarn_task_log_path_match path = none →
       ∀ (aid jid : Option String), _match_task_log_path path aid jid = none) := by
  refine ⟨?_, ?_, ?_⟩
  · intro f hf
    unfold _match_task_log_path
    rw [hf]
    rfl
  · intro f hf
    have hpre : _pre_yarn_task_log_path_match path = none := by
      cases hp : _pre_yarn_task_log_path_match path with
      | none => rfl
      | some g =>
        rw [_pre_yarn_exclusive path g hp] at hf
        exact absurd hf (by simp)
    unfold _match_task_log_path
    rw [hpre, hf]
    rfl
  · intro h1 h2 aid jid
    unfold _match_task_log_path
    rw [h1, h2]

/-- C7 witness: a pre-YARN path, a YARN path, and a plain path. -/
theorem c7_witness :
    _match_task_log_path "a/attempt_1_2_m_3_4/stderr" none none =
      some ⟨some "attempt_1_2_m_3_4", none, none, "stderr"⟩
    ∧ _match_task_log_path "x/application_1_1234/container_1/syslog" none none =
      some ⟨none, some "application_1_1234", some "container_1", "syslog"⟩
    ∧ _match_task_log_path "a/b/c" none none = none := by
  refine ⟨?_, ?_, ?_⟩
  · exact (c7_match_task_log_path_fields "a/attempt_1_2_m_3_4/stderr").1
      ⟨"attempt_1_2_m_3_4", "1", "2", "stderr"⟩ (by decide)
  · exact (c7_match_task_log_path_fields "x/application_1_1234/container_1/syslog").2.1
      ⟨"application_1_1234", "container_1", "syslog"⟩ (by decide)
  · exact (c7_match_task_log_path_fields "a/b/c").2.2 (by decide) (by decide) none none

/-- C8: on a structurally matching path, a supplied (non-empty) filter that
disagrees with the path's identity — `job_id` against the id derived from
the attempt id on pre-YARN, `application_id` against the path's own on
YARN — makes `_match_task_log_path` return none, the same value as for a
path matching neither layout. -/
theorem c8_match_task_log_path_filter_mismatch (path : String) :
    (∀ (f : PreYarnFields) (j : String) (aid : Option String),
      _pre_yarn_task_log_path_match path = some f → j ≠ "" →
      j ≠ _to_job_id f.attempt_id →
      _match_task_log_path path aid (some j) = none)
    ∧ (∀ (f : YarnFields) (a : String) (jid : Option String),
      _yarn_task_log_path_match path = some f → a ≠ "" →
      a ≠ f.application_id →
      _match_task_log_path path (some a) jid = none) := by
  constructor
  · intro f j aid hf hj hne
    unfold _match_task_log_path
    rw [hf]
    dsimp only
    rw [if_pos]
    simp only [_truthy, Bool.and_eq_true, Bool.not_eq_true', beq_eq_false_iff_ne,
      bne_iff_ne, ne_eq, Option.some.injEq]
    exact ⟨hj, hne⟩
  · intro f a jid hf ha hne
    have hpre : _pre_yarn_task_log_path_match path = none := by
      cases hp : _pre_yarn_task_log_path_match path with
      | none => rfl
      | some g =>
        rw [_pre_yarn_exclusive path g hp] at hf
        exact absurd hf (by simp)
    unfold _match_task_log_path
    rw [hpre, hf]
    dsimp only
    rw [if_pos]
    simp only [_truthy, Bool.and_eq_true, Bool.not_eq_true', beq_eq_false_iff_ne,
      bne_iff_ne, ne_eq, Option.some.injEq]
    exact ⟨ha, hne⟩

/-- C8 witness: wrong `job_id` (pre-YARN) and wrong `application_id` (YARN)
both return none. -/
theorem c8_witness :
    _match_task_log_path "a/attempt_1_2_m_3_4/stderr" none (some "job_9_9") = none
    ∧ _match_task_log_path "x/application_1_1234/container_1/syslog"
        (some "application_9_9999") none = none := by
  constructor
  · exact (c8_match_task_log_path_filter_mismatch "a/attempt_1_2_m_3_4/stderr").1
      ⟨"attempt_1_2_m_3_4", "1", "2", "stderr"⟩ "job_9_9" none
      (by decide) (by decide) (by decide)
  · exact (c8_match_task_log_path_filter_mismatch
      "x/application_1_1234/container_1/syslog").2
      ⟨"application_1_1234", "container_1", "syslog"⟩ "application_9_9999" none
      (by decide) (by decide) (by decide)

/-- C9: each identity filter is layout-specific: on a YARN-layout path the
result ignores the `job_id` argument entirely, and on a pre-YARN-layout path
it ignores the `application_id` argument entirely. -/
theorem c9_match_task_log_path_filter_independence (path : String) :
    (∀ (f : YarnFields) (aid j1 j2 : Option String),
      _yarn_task_log_path_match path = some f →
      _match_task_log_path path aid j1 = _match_task_log_path path aid j2)
    ∧ (∀ (f : PreYarnFields) (a1 a2 jid : Option String),
      _pre_yarn_task_log_path_match path = some f →
      _match_task_log_path path a1 jid = _match_task_log_path path a2 jid) := by
  constructor
  · intro f aid j1 j2 hf
    have hpre : _pre_yarn_task_log_path_match path = none := by
      cases hp : _pre_yarn_task_log_path_match path with
      | none => rfl
      | some g =>
        rw [_pre_yarn_exclusive path g hp] at hf
        exact absurd hf (by simp)
    unfold _match_task_log_path
    rw [hpre]
  · intro f a1 a2 jid hf
    unfold _match_task_log_path
    rw [hf]

/-- C9 witness: on a YARN path the `job_id` filter has no effect. -/
theorem c9_witness :
    _match_task_log_path "x/application_1_1234/container_1/syslog" none
        (some "job_1_2") =
      _match_task_log_path "x/application_1_1234/container_1/syslog" none none := by
  exact (c9_match_task_log_path_filter_independence
    "x/application_1_1234/container_1/syslog").1
    ⟨"application_1_1234", "container_1", "syslog"⟩ none (some "job_1_2") none
    (by decide)

end MrjobTask
